import Mathlib

/-!
# Verification of the GodEye dashboard client modules

This file gives a shallow embedding, in Lean 4, of the two JavaScript
modules of the repository:

* `dashboard/static/js/app.js`     (search page: validation, query-type
  detection, storage writes, submit handler), and
* `dashboard/static/js/results.js` (results page: storage reads, payload
  validation, rendering thresholds, CSV export, page bootstrap),

together with proofs of the behavioural properties claimed by the
specification.

Modelling conventions:

* JavaScript values (the JSON-serialisable fragment that the code
  manipulates) are modelled by the inductive type `JValue`.  Numbers are
  modelled as exact rationals `ℚ`; this is the standard idealisation of
  IEEE-754 doubles for code whose numeric behaviour is comparisons,
  `Math.round`, and decimal printing of short decimals.  `undefined` is
  conflated with `null` (both are falsy, and the code only ever branches
  on truthiness or strict string equality of the two).
* `localStorage` is a partial map from keys to raw strings,
  `Store := String → Option String`.
* `JSON.stringify` / `JSON.parse` are implemented (not axiomatised):
  `stringify` is a recursive printer and `jsonParse` a fuel-indexed
  recursive-descent parser for the JSON grammar, and the round-trip
  theorem for claim C8 is proved about them.
* Rational arithmetic in executable definitions is written with `mkRat`,
  `Rat.num`, `Rat.den` and integer arithmetic only (the `+ * /` rational
  operations of the library are `@[irreducible]` and would block kernel
  evaluation); bridging lemmas relate these encodings to the ordinary
  arithmetic operations where the statements call for them.
-/

/-! ## Generic character and digit helpers -/

/-- Decimal digit test, as the character range `[0-9]`. -/
def isDigitChar (c : Char) : Bool := 48 ≤ c.toNat && c.toNat ≤ 57

/-- Value of a decimal digit character. -/
def digitVal (c : Char) : Nat := c.toNat - 48

/-- Value of a string of decimal digits, most significant first. -/
def digitsVal (l : List Char) : Nat := l.foldl (fun n c => 10 * n + digitVal c) 0

/-- The character for a single decimal digit (inputs are always < 10). -/
def digitChar : Nat → Char
  | 0 => '0' | 1 => '1' | 2 => '2' | 3 => '3' | 4 => '4'
  | 5 => '5' | 6 => '6' | 7 => '7' | 8 => '8' | _ => '9'

/-- Decimal digits of `n` (auxiliary, structurally recursive on fuel). -/
def natDigitsAux : Nat → Nat → List Char
  | 0, _ => []
  | f + 1, n => if n < 10 then [digitChar n] else natDigitsAux f (n / 10) ++ [digitChar (n % 10)]

/-- Decimal digits of a natural number, no leading zeros (`0` prints as `"0"`). -/
def natDigits (n : Nat) : List Char := natDigitsAux (n + 1) n

/-- Decimal string of a natural number. -/
def natToStr (n : Nat) : String := String.mk (natDigits n)

/-- Decimal string of an integer (this is how JavaScript prints integral numbers). -/
def intToStr (i : Int) : String := (if i < 0 then "-" else "") ++ natToStr i.natAbs

/-- Join a list of strings with a separator (executable `Array.join`). -/
def joinWith (sep : String) : List String → String
  | [] => ""
  | [x] => x
  | x :: xs => x ++ sep ++ joinWith sep xs

/-- Whitespace in the sense of JavaScript's `String.prototype.trim` /
regex `\s` (the characters that occur in the claims' inputs: space, tab,
newline, carriage return, form feed, vertical tab). -/
def isWsChar (c : Char) : Bool :=
  c == ' ' || c == '\t' || c == '\n' || c == '\r' || c.toNat == 11 || c.toNat == 12

/-- Drop leading whitespace characters. -/
def dropWs : List Char → List Char
  | [] => []
  | c :: rest => if isWsChar c then dropWs rest else c :: rest

/-- Executable model of JavaScript `String.prototype.trim`. -/
def jsTrim (s : String) : String :=
  String.mk (List.reverse (dropWs (List.reverse (dropWs s.toList))))

/-! ## The JavaScript/JSON value model -/

/-- JSON-serialisable JavaScript values.  Numbers are exact rationals,
object fields are in insertion order. -/
inductive JValue : Type where
  | null : JValue
  | bool : Bool → JValue
  | num : ℚ → JValue
  | str : String → JValue
  | arr : List JValue → JValue
  | obj : List (String × JValue) → JValue

/-- JavaScript truthiness of a value (`!!v`).  `null`/`undefined`, `false`,
`0`, and `""` are falsy; every object and array is truthy. -/
def truthy : JValue → Bool
  | .null => false
  | .bool b => b
  | .num q => !(q.num == 0)
  | .str s => !(s == "")
  | .arr _ => true
  | .obj _ => true

/-- Whether `typeof v === 'object'` holds (true for objects, arrays, and
`null`). -/
def typeofIsObject : JValue → Bool
  | .null => true
  | .arr _ => true
  | .obj _ => true
  | _ => false

/-- Property access `v[k]` on an object; `none` models `undefined`
(absent field, or access on a non-object). -/
def objGet : JValue → String → Option JValue
  | .obj fields, k => fields.lookup k
  | _, _ => none

/-- Property access that conflates `undefined` with `null` (legitimate
because the embedded code only tests truthiness or strict equality with
strings on the result). -/
def jsField (v : JValue) (k : String) : JValue := (objGet v k).getD .null

/-- Strict equality `x === s` of a possibly-undefined value with a string
literal. -/
def strictEqStr (v : Option JValue) (s : String) : Bool :=
  match v with
  | some (.str t) => t == s
  | _ => false

/-- The JavaScript default idiom `x || d`. -/
def jsOr (v : Option JValue) (deflt : JValue) : JValue :=
  match v with
  | some x => if truthy x then x else deflt
  | none => deflt

/-- JavaScript `ToNumber` coercion on the values the claims exercise
(`none` models `NaN`).  String-to-number parsing is not modelled: no claim
applies a numeric operation to a string. -/
def jsToNumber : JValue → Option ℚ
  | .num q => some q
  | .bool b => some (if b then 1 else 0)
  | .null => some 0
  | _ => none

/-- Multiplication of a rational by a natural number, in a form the kernel
can evaluate (`Rat.mul` is irreducible). -/
def jsMulNat (q : ℚ) (n : Nat) : ℚ := mkRat (q.num * n) q.den

/-- JavaScript `Math.round`: round half toward `+∞`, i.e. `⌊q + 1/2⌋`,
computed on the numerator/denominator representation. -/
def jsMathRound (q : ℚ) : Int := Int.fdiv (2 * q.num + q.den) (2 * q.den)

/-! ## Decimal printing of numbers (JavaScript number-to-string) -/

/-- Least `k` with `d ∣ 10 ^ k`, when one exists (i.e. when `d` factors
into 2s and 5s); this is the number of decimal fraction digits needed. -/
def decExp (d : Nat) : Option Nat :=
  (List.range (d + 1)).find? (fun k => 10 ^ k % d == 0)

/-- Whether the rational has a finite decimal representation (every IEEE
double does; this is the "JSON-serialisable number" side condition of the
round-trip claim). -/
def decimalOk (q : ℚ) : Bool := (decExp q.den).isSome

/-- Decimal printing of a rational with a finite decimal expansion, as
JavaScript prints numbers: optional sign, integer part without leading
zeros, and a fractional part only when nonzero scale is needed. -/
def printNum (q : ℚ) : List Char :=
  let n := q.num.natAbs
  let d := q.den
  let k := (decExp d).getD 0
  let m := n * (10 ^ k / d)
  let sgn := if q.num < 0 then ['-'] else []
  let intDs := natDigits (m / 10 ^ k)
  let frac :=
    if k == 0 then []
    else
      let fds := natDigits (m % 10 ^ k)
      '.' :: (List.replicate (k - fds.length) '0' ++ fds)
  sgn ++ intDs ++ frac

mutual
/-- JavaScript `String(v)` coercion as used in template literals: numbers
print in decimal, arrays join their elements with commas (`null` elements
print empty), plain objects print `"[object Object]"`. -/
def jsDisplay : JValue → String
  | .null => "null"
  | .bool b => if b then "true" else "false"
  | .num q => String.mk (printNum q)
  | .str s => s
  | .arr xs => jsDisplayItems xs
  | .obj _ => "[object Object]"
def jsDisplayItems : List JValue → String
  | [] => ""
  | [x] => (match x with | .null => "" | v => jsDisplay v)
  | x :: xs => (match x with | .null => "" | v => jsDisplay v) ++ "," ++ jsDisplayItems xs
end

/-! ## JSON.stringify -/

/-- The four-bit hexadecimal digit characters used in `\u00XX` escapes
(lowercase, as emitted by JavaScript engines). -/
def hexDigitChar : Nat → Char
  | 0 => '0' | 1 => '1' | 2 => '2' | 3 => '3' | 4 => '4' | 5 => '5'
  | 6 => '6' | 7 => '7' | 8 => '8' | 9 => '9' | 10 => 'a' | 11 => 'b'
  | 12 => 'c' | 13 => 'd' | 14 => 'e' | _ => 'f'

/-- JSON string escaping of one character, exactly as `JSON.stringify`
emits it: `"` and `\` are backslash-escaped, the named control escapes
are used for backspace, tab, newline, form feed and carriage return, all
other control characters become `\u00XX`, and everything else is
literal. -/
def escapeChar (c : Char) : List Char :=
  if c == '\"' then ['\\', '\"']
  else if c == '\\' then ['\\', '\\']
  else if c == '\n' then ['\\', 'n']
  else if c == '\r' then ['\\', 'r']
  else if c == '\t' then ['\\', 't']
  else if c.toNat == 8 then ['\\', 'b']
  else if c.toNat == 12 then ['\\', 'f']
  else if c.toNat < 32 then
    ['\\', 'u', '0', '0', hexDigitChar (c.toNat / 16), hexDigitChar (c.toNat % 16)]
  else [c]

/-- JSON escaping of a character list. -/
def escList : List Char → List Char
  | [] => []
  | c :: rest => escapeChar c ++ escList rest

mutual
/-- The characters emitted by `JSON.stringify` for a value (no
whitespace, fields in insertion order, strings escaped). -/
def printV : JValue → List Char
  | .null => ['n', 'u', 'l', 'l']
  | .bool b => if b then ['t', 'r', 'u', 'e'] else ['f', 'a', 'l', 's', 'e']
  | .num q => printNum q
  | .str s => '\"' :: (escList s.data ++ ['\"'])
  | .arr xs => '[' :: (printItems xs ++ [']'])
  | .obj fs => '\x7b' :: (printMembers fs ++ ['\x7d'])
/-- Array elements, comma separated. -/
def printItems : List JValue → List Char
  | [] => []
  | [x] => printV x
  | x :: xs => printV x ++ ',' :: printItems xs
/-- Object members `"key":value`, comma separated. -/
def printMembers : List (String × JValue) → List Char
  | [] => []
  | [(k, v)] => '\"' :: (escList k.data ++ '\"' :: ':' :: printV v)
  | (k, v) :: fs => ('\"' :: (escList k.data ++ '\"' :: ':' :: printV v)) ++ ',' :: printMembers fs
end

/-- `JSON.stringify` on the JSON-serialisable fragment: `StorageManager.set`
stores exactly this string (app.js line 124). -/
def stringify (v : JValue) : String := String.mk (printV v)

/-! ## JSON.parse

A fuel-indexed recursive-descent parser for the JSON grammar.  Fuel is
structural so that the kernel can run the parser inside `decide`/`rfl`;
the top-level wrapper passes `length + 1` fuel, which is enough for every
input (nesting depth plus string lengths are bounded by the input
length), as proved for printed values in the round-trip development
below. -/

/-- Skip JSON insignificant whitespace. -/
def skipWs : List Char → List Char
  | [] => []
  | c :: rest => if c == ' ' || c == '\t' || c == '\n' || c == '\r' then skipWs rest else c :: rest

/-- Value of one hexadecimal digit character, if any. -/
def parseHexDigit (c : Char) : Option Nat :=
  if 48 ≤ c.toNat && c.toNat ≤ 57 then some (c.toNat - 48)
  else if 97 ≤ c.toNat && c.toNat ≤ 102 then some (c.toNat - 87)
  else if 65 ≤ c.toNat && c.toNat ≤ 70 then some (c.toNat - 55)
  else none

/-- Parse the body of a JSON string after the opening quote, returning
the decoded characters and the remainder after the closing quote. -/
def parseStringBody : Nat → List Char → Option (List Char × List Char)
  | 0, _ => none
  | _ + 1, [] => none
  | f + 1, c :: rest =>
    if c == '\"' then some ([], rest)
    else if c == '\\' then
      match rest with
      | [] => none
      | e :: rest2 =>
        let dec : Option (Char × List Char) :=
          if e == '\"' then some ('\"', rest2)
          else if e == '\\' then some ('\\', rest2)
          else if e == '/' then some ('/', rest2)
          else if e == 'b' then some ('\x08', rest2)
          else if e == 'f' then some ('\x0c', rest2)
          else if e == 'n' then some ('\n', rest2)
          else if e == 'r' then some ('\r', rest2)
          else if e == 't' then some ('\t', rest2)
          else if e == 'u' then
            match rest2 with
            | h1 :: h2 :: h3 :: h4 :: rest3 =>
              match parseHexDigit h1, parseHexDigit h2, parseHexDigit h3, parseHexDigit h4 with
              | some a, some b, some c2, some d =>
                some (Char.ofNat (((a * 16 + b) * 16 + c2) * 16 + d), rest3)
              | _, _, _, _ => none
            | _ => none
          else none
        match dec with
        | some (ch, rest') =>
          match parseStringBody f rest' with
          | some (s, r) => some (ch :: s, r)
          | none => none
        | none => none
    else
      match parseStringBody f rest with
      | some (s, r) => some (c :: s, r)
      | none => none

/-- Split a maximal prefix of decimal digits. -/
def takeDigits : List Char → List Char × List Char
  | [] => ([], [])
  | c :: rest =>
    if isDigitChar c then
      let (ds, l) := takeDigits rest
      (c :: ds, l)
    else ([], c :: rest)

/-- Parse the digits of a JSON number after the optional leading minus
sign: integer part without leading zeros, optional fraction, optional
exponent, combined into an exact rational with the given sign. -/
def parseNumBody (sgn : Int) (l1 : List Char) : Option (ℚ × List Char) :=
  match takeDigits l1 with
  | ([], _) => none
  | (i :: ids, l2) =>
    if i == '0' && !ids.isEmpty then none
    else
      let fracPart : Option (List Char × List Char) :=
        match l2 with
        | c :: r =>
          if c == '.' then
            match takeDigits r with
            | ([], _) => none
            | (fs, l3) => some (fs, l3)
          else some ([], c :: r)
        | [] => some ([], [])
      match fracPart with
      | none => none
      | some (fs, l3) =>
        let expPart : Option (Int × List Char) :=
          match l3 with
          | e :: r =>
            if e == 'e' || e == 'E' then
              let er : Int × List Char :=
                match r with
                | c :: r3 =>
                  if c == '+' then (1, r3)
                  else if c == '-' then (-1, r3)
                  else (1, c :: r3)
                | [] => (1, [])
              match takeDigits er.2 with
              | ([], _) => none
              | (ds, r3) => some (er.1 * (digitsVal ds : Int), r3)
            else some (0, e :: r)
          | [] => some (0, [])
        match expPart with
        | none => none
        | some (ex, l4) =>
          let m : Int := sgn * (digitsVal (i :: ids ++ fs) : Int)
          let q : ℚ :=
            if 0 ≤ ex then mkRat (m * ((10 : Int) ^ ex.toNat)) (10 ^ fs.length)
            else mkRat m (10 ^ (fs.length + (-ex).toNat))
          some (q, l4)

/-- Parse a JSON number (sign, integer part without leading zeros,
optional fraction, optional exponent) into an exact rational. -/
def parseNumber (l : List Char) : Option (ℚ × List Char) :=
  match l with
  | c :: r => if c == '-' then parseNumBody (-1) r else parseNumBody 1 (c :: r)
  | [] => parseNumBody 1 []

mutual
/-- Parse one JSON value (fuel-indexed). -/
def parseValue : Nat → List Char → Option (JValue × List Char)
  | 0, _ => none
  | f + 1, l =>
    match skipWs l with
    | [] => none
    | c :: r =>
      if c == '\x7b' then
        match skipWs r with
        | '\x7d' :: r2 => some (.obj [], r2)
        | r2 =>
          match parseMembers f r2 with
          | some (fs, rest) => some (.obj fs, rest)
          | none => none
      else if c == '[' then
        match skipWs r with
        | ']' :: r2 => some (.arr [], r2)
        | r2 =>
          match parseItems f r2 with
          | some (xs, rest) => some (.arr xs, rest)
          | none => none
      else if c == '\"' then
        match parseStringBody f r with
        | some (cs, rest) => some (.str (String.mk cs), rest)
        | none => none
      else if c == 't' then
        match r with
        | 'r' :: 'u' :: 'e' :: r2 => some (.bool true, r2)
        | _ => none
      else if c == 'f' then
        match r with
        | 'a' :: 'l' :: 's' :: 'e' :: r2 => some (.bool false, r2)
        | _ => none
      else if c == 'n' then
        match r with
        | 'u' :: 'l' :: 'l' :: r2 => some (.null, r2)
        | _ => none
      else
        match parseNumber (c :: r) with
        | some (q, rest) => some (.num q, rest)
        | none => none
/-- Parse the elements of a non-empty array up to and including `]`. -/
def parseItems : Nat → List Char → Option (List JValue × List Char)
  | 0, _ => none
  | f + 1, l =>
    match parseValue f l with
    | none => none
    | some (v, rest) =>
      match skipWs rest with
      | ',' :: r2 =>
        match parseItems f r2 with
        | some (xs, r3) => some (v :: xs, r3)
        | none => none
      | ']' :: r2 => some ([v], r2)
      | _ => none
/-- Parse the members of a non-empty object up to and including the
closing brace. -/
def parseMembers : Nat → List Char → Option (List (String × JValue) × List Char)
  | 0, _ => none
  | f + 1, l =>
    match skipWs l with
    | '\"' :: r =>
      match parseStringBody f r with
      | none => none
      | some (key, r2) =>
        match skipWs r2 with
        | ':' :: r3 =>
          match parseValue f r3 with
          | none => none
          | some (v, r4) =>
            match skipWs r4 with
            | ',' :: r5 =>
              match parseMembers f r5 with
              | some (fs, r6) => some ((String.mk key, v) :: fs, r6)
              | none => none
            | '\x7d' :: r5 => some ([(String.mk key, v)], r5)
            | _ => none
        | _ => none
    | _ => none
end

/-- `JSON.parse`: parse a complete JSON text (allowing surrounding
whitespace); `none` models the `SyntaxError` exception. -/
def jsonParse (s : String) : Option JValue :=
  match parseValue (s.toList.length + 1) s.toList with
  | some (v, rest) => if (skipWs rest).isEmpty then some v else none
  | none => none

/-! ## localStorage model -/

/-- The browser-local key/value store: keys to raw stored strings. -/
def Store : Type := String → Option String

/-- The storage keys of `CONFIG.STORAGE` (identical in both modules). -/
def RESULTS_KEY : String := "godeyeResults"

/-- Key holding the last submitted query string. -/
def QUERY_KEY : String := "lastQuery"

/-- Key holding the last query type. -/
def TYPE_KEY : String := "lastQueryType"

/-- Key holding the last search timestamp. -/
def TIMESTAMP_KEY : String := "lastSearchTimestamp"

/-- `StorageManager.get(key, default)` (results.js lines 113-121, identical
in app.js): missing key or empty raw string yields the default, a raw
string that fails `JSON.parse` is caught and yields the default. -/
def storageGet (store : Store) (key : String) (deflt : JValue) : JValue :=
  match store key with
  | none => deflt
  | some raw =>
    if raw == "" then deflt
    else
      match jsonParse raw with
      | some v => v
      | none => deflt

/-- `StorageManager.set(key, value)` (app.js lines 122-132): serialise with
`JSON.stringify` and store; `writeOk` is the environment's oracle for
whether the underlying `localStorage.setItem` succeeds (it throws on
quota exhaustion, which `set` catches, returning `false` and leaving the
store unchanged).  Returns the updated store and the boolean result. -/
def storageSet (writeOk : String → Bool) (store : Store) (key : String) (v : JValue) :
    Store × Bool :=
  if writeOk key then
    ((fun k => if k == key then some (stringify v) else store k), true)
  else (store, false)

/-! ## app.js: CONFIG.PATTERNS as executable predicates

Each JavaScript regular expression is anchored (`^...$`) and
dot-separator based, so its backtracking semantics coincides with an
explicit decomposition of the character list; each predicate below is the
direct transcription. -/

/-- One octet of `CONFIG.PATTERNS.IP`, the alternation
`25[0-5]|2[0-4][0-9]|[01]?[0-9][0-9]?` matched against a whole
dot-free group: one or two arbitrary digits, or three digits constrained
as in the alternation (character codes: `'0'` = 48, `'1'` = 49, `'2'` = 50,
`'4'` = 52, `'5'` = 53). -/
def octetRe : List Char → Bool
  | [a] => isDigitChar a
  | [a, b] => isDigitChar a && isDigitChar b
  | [a, b, c] =>
    (a.toNat == 50 && b.toNat == 53 && 48 ≤ c.toNat && c.toNat ≤ 53) ||
    (a.toNat == 50 && 48 ≤ b.toNat && b.toNat ≤ 52 && isDigitChar c) ||
    ((a.toNat == 48 || a.toNat == 49) && isDigitChar b && isDigitChar c)
  | _ => false

/-- Split a character list at every `'.'` (the groups between the forced
literal dots of the anchored patterns). -/
def splitDots : List Char → List (List Char)
  | [] => [[]]
  | c :: rest =>
    if c == '.' then [] :: splitDots rest
    else
      match splitDots rest with
      | g :: gs => (c :: g) :: gs
      | [] => [[c]]

/-- `CONFIG.PATTERNS.IP.test`: exactly four dot-separated groups, each
matching the octet alternation. -/
def ipTest (s : String) : Bool :=
  let parts := splitDots s.toList
  parts.length == 4 && parts.all octetRe

/-- The character class `[^\s@]` of `CONFIG.PATTERNS.EMAIL`. -/
def emailChar (c : Char) : Bool := !(isWsChar c) && !(c == '@')

/-- `CONFIG.PATTERNS.EMAIL.test`, the anchored `[^\s@]+@[^\s@]+\.[^\s@]+`:
there is a position `i` holding the unique `'@'` (every other position is
a non-whitespace non-`'@'` character), at least one character precedes it,
and some `'.'` occurs at a position `j` with at least one character
between `'@'` and `'.'` and at least one after the `'.'`. -/
def emailTest (s : String) : Bool :=
  let l := s.toList
  let n := l.length
  (List.range n).any fun i =>
    decide (0 < i) && l.getD i ' ' == '@' &&
    ((List.range n).all fun p => p == i || emailChar (l.getD p ' ')) &&
    ((List.range n).any fun j => decide (i + 1 < j) && decide (j + 1 < n) && l.getD j ' ' == '.')

/-- The class `[a-z0-9]` under the `i` flag of `CONFIG.PATTERNS.DOMAIN`. -/
def isAlnumChar (c : Char) : Bool :=
  (97 ≤ c.toNat && c.toNat ≤ 122) || (65 ≤ c.toNat && c.toNat ≤ 90) || isDigitChar c

/-- The class `[a-z0-9-]` under the `i` flag (letters, digits, hyphen). -/
def isLdhChar (c : Char) : Bool := isAlnumChar c || c == '-'

/-- A leading label of `CONFIG.PATTERNS.DOMAIN`:
`[a-z0-9](?:[a-z0-9-]{0,61}[a-z0-9])?` matched against a whole dot-free
group — a single alphanumeric, or 2 to 63 characters that start and end
alphanumeric with letters/digits/hyphens between. -/
def labelRe : List Char → Bool
  | [] => false
  | [a] => isAlnumChar a
  | a :: rest =>
    isAlnumChar a && decide (rest.length ≤ 62) && rest.dropLast.all isLdhChar &&
    (match rest.getLast? with
     | some z => isAlnumChar z
     | none => false)

/-- The final label of `CONFIG.PATTERNS.DOMAIN`:
`[a-z0-9][a-z0-9-]{0,61}[a-z0-9]` — 2 to 63 characters, first and last
alphanumeric. -/
def finalLabelRe : List Char → Bool
  | [] => false
  | [_] => false
  | a :: rest =>
    isAlnumChar a && decide (rest.length ≤ 62) && rest.dropLast.all isLdhChar &&
    (match rest.getLast? with
     | some z => isAlnumChar z
     | none => false)

/-- `CONFIG.PATTERNS.DOMAIN.test`: at least two dot-separated groups,
every group but the last a leading label, the last the final label. -/
def domainTest (s : String) : Bool :=
  let parts := splitDots s.toList
  match parts with
  | [] => false
  | [_] => false
  | _ =>
    parts.dropLast.all labelRe &&
    (match parts.getLast? with
     | some t => finalLabelRe t
     | none => false)

/-- The class `[-a-zA-Z0-9@:%._\+~#=]` of `CONFIG.PATTERNS.URL`. -/
def isUrlAChar (c : Char) : Bool :=
  isAlnumChar c || c == '-' || c == '@' || c == ':' || c == '%' || c == '.' ||
  c == '_' || c == '+' || c == '~' || c == '#' || c == '='

/-- The class `[a-zA-Z0-9()]` (the 1-6 character group of the URL pattern). -/
def isTldChar (c : Char) : Bool := isAlnumChar c || c == '(' || c == ')'

/-- The trailing class `[-a-zA-Z0-9()@:%_\+.~#?&//=]` of the URL pattern. -/
def isUrlTailChar (c : Char) : Bool :=
  isAlnumChar c || c == '-' || c == '(' || c == ')' || c == '@' || c == ':' ||
  c == '%' || c == '_' || c == '+' || c == '.' || c == '~' || c == '#' ||
  c == '?' || c == '&' || c == '/' || c == '='

/-- Word characters for the `\b` boundary assertion (`[A-Za-z0-9_]`). -/
def isWordChar (c : Char) : Bool := isAlnumChar c || c == '_'

/-- Strip a literal character sequence from the front, if present. -/
def stripLit : List Char → List Char → Option (List Char)
  | [], l => some l
  | p :: ps, c :: l => if c == p then stripLit ps l else none
  | _ :: _, [] => none

/-- The part of `CONFIG.PATTERNS.URL` after the protocol and optional
`www.`: `[-a-zA-Z0-9@:%._\+~#=]{1,256}\.[a-zA-Z0-9()]{1,6}\b(tail*)`,
as an existential over the split positions, with the `\b` word-boundary
test between the 1-6 character group and what follows. -/
def urlCore (r : List Char) : Bool :=
  let n := r.length
  (List.range n).any fun i =>
    decide (1 ≤ i) && decide (i ≤ 256) && r.getD i ' ' == '.' &&
    ((List.range i).all fun p => isUrlAChar (r.getD p ' ')) &&
    ((List.range 7).any fun j =>
      decide (1 ≤ j) && decide (i + j + 1 ≤ n) &&
      ((List.range j).all fun t => isTldChar (r.getD (i + 1 + t) ' ')) &&
      (let k := i + 1 + j
       let w1 := isWordChar (r.getD (k - 1) ' ')
       let w2 := if k < n then isWordChar (r.getD k ' ') else false
       (w1 != w2) &&
       ((List.range (n - k)).all fun t => isUrlTailChar (r.getD (k + t) ' '))))

/-- `CONFIG.PATTERNS.URL.test`: `https?:\/\/(www\.)?` then `urlCore`
(both alternatives of the optional `www.` group are tried, as the
backtracking engine does). -/
def urlTest (s : String) : Bool :=
  match stripLit ['h', 't', 't', 'p'] s.toList with
  | none => false
  | some l1 =>
    let l2 := match l1 with
      | 's' :: r => r
      | _ => l1
    match stripLit [':', '/', '/'] l2 with
    | none => false
    | some l3 =>
      match stripLit ['w', 'w', 'w', '.'] l3 with
      | some l4 => urlCore l4 || urlCore l3
      | none => urlCore l3

/-! ## app.js: Validator -/

/-- Result of `Validator.validateQuery`: `{valid: true, query}` or
`{valid: false, error}`. -/
inductive VResult : Type where
  | ok (query : String) : VResult
  | err (error : String) : VResult
deriving DecidableEq

/-- The `valid` field of a validation result. -/
def VResult.valid : VResult → Bool
  | .ok _ => true
  | .err _ => false

/-- Lookup `CONFIG.PATTERNS[type.toUpperCase()]` (app.js line 207): the
four named patterns, `none` for any other type string. -/
def patternFor (ty : String) : Option (String → Bool) :=
  if ty == "domain" then some domainTest
  else if ty == "ip" then some ipTest
  else if ty == "email" then some emailTest
  else if ty == "url" then some urlTest
  else none

/-- `Validator.validateQuery(query, type)` (app.js lines 186-213): reject
an empty (falsy) query, trim, reject an empty or over-500-character
trimmed query, skip pattern checking for type `auto` and for unknown
types, and otherwise require the trimmed query to match the type's
pattern. -/
def validateQuery (query ty : String) : VResult :=
  if query == "" then .err "Query must be a non-empty string"
  else
    let trimmedQuery := jsTrim query
    if trimmedQuery.length == 0 then .err "Query cannot be empty"
    else if 500 < trimmedQuery.length then .err "Query is too long (max 500 characters)"
    else if ty == "auto" then .ok trimmedQuery
    else
      match patternFor ty with
      | some p => if !(p trimmedQuery) then .err ("Invalid " ++ ty ++ " format") else .ok trimmedQuery
      | none => .ok trimmedQuery

/-- `Validator.detectQueryType(query)` (app.js lines 218-224): first match
in the fixed order IP, EMAIL, DOMAIN, URL wins; otherwise `unknown`. -/
def detectQueryType (query : String) : String :=
  if ipTest query then "ip"
  else if emailTest query then "email"
  else if domainTest query then "domain"
  else if urlTest query then "url"
  else "unknown"

/-! ## results.js: DataManager, Renderer thresholds, page bootstrap -/

/-- Result of `DataManager.validateResults` (results.js lines 323-337). -/
inductive VRes : Type where
  | valid : VRes
  | invalid (error : String) : VRes
deriving DecidableEq

/-- The error text `results.message || 'Analysis failed'` (the same idiom
appears in app.js line 575). -/
def errMessage (results : JValue) : String :=
  match objGet results "message" with
  | some m => if truthy m then jsDisplay m else "Analysis failed"
  | none => "Analysis failed"

/-- The response-shape guard `!results || typeof results !== 'object'`
(results.js line 324; the identical test is app.js line 570). -/
def badShape (results : JValue) : Bool :=
  !(truthy results) || !(typeofIsObject results)

/-- `DataManager.validateResults(results)` (results.js lines 323-337):
invalid if falsy or not of object type; invalid with the payload's
message if `status !== 'success'`; invalid if the `analytics` or
`results` field is absent or falsy; valid otherwise. -/
def validateResults (results : JValue) : VRes :=
  if badShape results then .invalid "Invalid results format"
  else if !(strictEqStr (objGet results "status") "success") then .invalid (errMessage results)
  else if !(truthy (jsField results "analytics")) || !(truthy (jsField results "results")) then
    .invalid "Incomplete results data"
  else .valid

/-- `StorageManager.hasResults()` (results.js lines 140-142):
`!!localStorage.getItem(RESULTS_KEY)` — present and non-empty raw string. -/
def hasResults (store : Store) : Bool :=
  match store RESULTS_KEY with
  | some raw => !(raw == "")
  | none => false

/-- `DataManager.loadResults()` (results.js lines 306-318): read the
stored payload with default `null`; a falsy parsed value is reported as
`null`. -/
def loadResults (store : Store) : JValue :=
  let results := storageGet store RESULTS_KEY .null
  if !(truthy results) then .null else results

/-- Observable outcome of the results-page bootstrap: either the
full-page error state (`ErrorHandler.showErrorState(message)` with a
3-second redirect) or rendering of a payload
(`Renderer.renderAll(results)` plus button wiring). -/
inductive InitOutcome : Type where
  | errorState (message : String) : InitOutcome
  | rendered (results : JValue) : InitOutcome

/-- Whether the bootstrap outcome is the render path. -/
def InitOutcome.isRendered : InitOutcome → Bool
  | .rendered _ => true
  | .errorState _ => false

/-- The results-page bootstrap `initialize` (results.js lines 886-929):
no stored raw string → error state; falsy loaded payload → error state;
`validateResults` failure → error state with the validation error;
otherwise render. -/
def resultsPageInit (store : Store) : InitOutcome :=
  if !(hasResults store) then .errorState "No analysis data found. Please run a new search."
  else
    let results := loadResults store
    if !(truthy results) then .errorState "Failed to load results. Please try again."
    else
      match validateResults results with
      | .invalid e => .errorState e
      | .valid => .rendered results

/-- The risk-level classification of `Renderer.renderAnalytics`
(results.js lines 437-455) applied to `analytics.avg_confidence || 0`
(`mkRat 8 10` and `mkRat 5 10` are the literals `0.8` and `0.5`; see
`mkRat_8_10_eq` and `mkRat_5_10_eq` below). -/
def riskLevel (confidence : ℚ) : String :=
  if confidence ≥ mkRat 8 10 then "High"
  else if confidence ≥ mkRat 5 10 then "Medium"
  else "Low"

/-- `UIUtils.getConfidenceClass(confidence)` (results.js lines 281-287) on
numeric input (the function's string-coercion branch is not exercised by
any claim). -/
def getConfidenceClass (confidence : ℚ) : String :=
  if confidence ≥ mkRat 8 10 then "high"
  else if confidence ≥ mkRat 5 10 then "medium"
  else "low"

/-! ## results.js: ExportManager.downloadCSV -/

/-- Observable outcome of `ExportManager.downloadCSV(results)`
(results.js lines 705-748): the empty-data guard fires a
`'No data to export'` warning notification and returns without building a
CSV; otherwise a CSV blob is built and downloaded; a thrown exception
(e.g. `.map` on a non-array) is caught and surfaces the
`'Failed to export table'` error notification. -/
inductive CsvOutcome : Type where
  | noData : CsvOutcome
  | download (csv : String) : CsvOutcome
  | exportError : CsvOutcome
deriving DecidableEq

/-- One CSV cell: the template literal wrapping `` `"${cell}"` ``. -/
def csvCell (v : JValue) : String := "\"" ++ jsDisplay v ++ "\""

/-- The header strings of results.js line 714. -/
def CSV_HEADERS : List String := ["Indicator", "Type", "Confidence", "Connections", "Source"]

/-- The confidence column entry
`Math.round((item.confidence || 0) * 100) + '%'` (results.js line 718);
a non-numeric truthy confidence propagates NaN, printed `"NaN"`. -/
def confPercent (c : JValue) : String :=
  match jsToNumber c with
  | some q => intToStr (jsMathRound (jsMulNat q 100)) ++ "%"
  | none => "NaN%"

/-- The row built for one indicator (results.js lines 715-721), as the
list of JavaScript values placed in the row array; the confidence entry
is already a string there. -/
def csvRowVals (item : JValue) : List JValue :=
  [jsOr (objGet item "indicator") (.str "unknown"),
   jsOr (objGet item "type") (.str "unknown"),
   .str (confPercent (jsOr (objGet item "confidence") (.num 0))),
   jsOr (objGet item "connections") (.num 0),
   jsOr (objGet item "source") (.str "unknown")]

/-- The CSV text of results.js lines 723-725: header row first, then one
row per indicator, every cell (headers included) wrapped in double
quotes, cells joined with commas and rows with newlines. -/
def csvText (items : List JValue) : String :=
  joinWith "\n"
    (joinWith "," (CSV_HEADERS.map (fun h => "\"" ++ h ++ "\"")) ::
     items.map (fun item => joinWith "," ((csvRowVals item).map csvCell)))

/-- Strict equality `x === 0` of a possibly-undefined value with the
number literal `0` (the guard `results.length === 0`). -/
def strictEqZero (v : Option JValue) : Bool :=
  match v with
  | some (.num q) => q.num == 0
  | _ => false

/-- `ExportManager.downloadCSV(results)` (results.js lines 705-748).  The
guard `!results || results.length === 0` fires the warning path for falsy
input, the empty array, and a truthy value whose `length` property is the
number `0`; a non-empty array is serialised and downloaded; any other
truthy value makes `results.map` throw, which the handler catches. -/
def downloadCSV (results : JValue) : CsvOutcome :=
  if !(truthy results) then .noData
  else
    match results with
    | .arr [] => .noData
    | .arr items => .download (csvText items)
    | .obj _ => if strictEqZero (objGet results "length") then .noData else .exportError
    | _ => .exportError

/-! ## app.js: SearchHandler.handleSubmit -/

/-- The outcome of the network interaction `APIClient.search` inside
`handleSubmit`: either the awaited call threw (timeout, network failure,
non-2xx response — all surfaced as a thrown `Error`), or it resolved with
a parsed JSON body. -/
inductive NetOutcome : Type where
  | failure (message : String) : NetOutcome
  | success (body : JValue) : NetOutcome

/-- The environment a single submit runs in: the network outcome, the
per-key success oracle for `localStorage.setItem`, and the wall-clock
timestamp `new Date().toISOString()`. -/
structure SubmitEnv : Type where
  net : NetOutcome
  writeOk : String → Bool
  timestamp : String

/-- Observable outcome of `SearchHandler.handleSubmit` (app.js lines
517-603): validation failure notifies and leaves everything unchanged;
a failure after validation lands in the `catch` block (error
notification, form re-enabled); success stores the results and redirects
to the results page. -/
inductive SubmitResult : Type where
  | invalidInput (error : String) : SubmitResult
  | failed (errorMessage : String) : SubmitResult
  | succeeded : SubmitResult
deriving DecidableEq

/-- `SearchHandler.handleSubmit` (app.js lines 517-603) as a function of
the environment, the store, and the form contents (`searchInput.value`,
type selector value).  The input is trimmed (line 530) and validated
(line 536); the three query-metadata keys are written (lines 544-546)
before the network call (line 557); the response is shape-checked
(line 570) and status-checked (line 574); the results write (line 579)
is checked and its failure thrown (line 582); every thrown error lands
in the catch block (lines 594-602). -/
def handleSubmit (env : SubmitEnv) (store : Store) (rawQuery ty : String) :
    Store × SubmitResult :=
  let query := jsTrim rawQuery
  match validateQuery query ty with
  | .err e => (store, .invalidInput e)
  | .ok q =>
    let s1 := (storageSet env.writeOk store QUERY_KEY (.str q)).1
    let s2 := (storageSet env.writeOk s1 TYPE_KEY (.str ty)).1
    let s3 := (storageSet env.writeOk s2 TIMESTAMP_KEY (.str env.timestamp)).1
    match env.net with
    | .failure msg => (s3, .failed msg)
    | .success results =>
      if badShape results then (s3, .failed "Invalid response format from server")
      else if !(strictEqStr (objGet results "status") "success") then
        (s3, .failed (errMessage results))
      else
        let sr := storageSet env.writeOk s3 RESULTS_KEY results
        if !(sr.2) then (sr.1, .failed "Failed to store results. Check browser storage.")
        else (sr.1, .succeeded)

/-! ## Specification-side definitions

These definitions follow the specification's words (not the code) and are
compared with the code-level definitions in the claim theorems. -/

/-- One decimal octet in the sense of the spec's "dotted-quad IPv4
syntax ... each octet a number from 0 to 255": a group of one to three
decimal digits whose value is at most 255. -/
def specOctet (t : List Char) : Bool :=
  !t.isEmpty && decide (t.length ≤ 3) && t.all isDigitChar && decide (digitsVal t ≤ 255)

/-- The spec's "dotted-quad IPv4 syntax — exactly four decimal octets
separated by dots, each octet a number from 0 to 255". -/
def dottedQuadIPv4 (s : String) : Bool :=
  let parts := splitDots s.toList
  parts.length == 4 && parts.all specOctet

/-- An indicator record per the spec's data model (§3 "Indicator"), with
every field optional so that the defaulting behaviour of the CSV export
can be stated; a present string field is a meaningful (non-empty) string
and connections is a non-negative integer. -/
structure IndicatorRec : Type where
  indicator : Option String
  type : Option String
  confidence : Option ℚ
  connections : Option Nat
  source : Option String

/-- The optional-field encoding of a record field into JSON object
members (present fields only, in the fixed field order). -/
def optField (k : String) (v : Option JValue) : List (String × JValue) :=
  match v with
  | some x => [(k, x)]
  | none => []

/-- The JSON object a backend would return for an indicator record. -/
def IndicatorRec.toJValue (i : IndicatorRec) : JValue :=
  .obj (optField "indicator" (i.indicator.map .str) ++
        optField "type" (i.type.map .str) ++
        optField "confidence" (i.confidence.map .num) ++
        optField "connections" (i.connections.map (fun (n : Nat) => .num (mkRat (n : Int) 1))) ++
        optField "source" (i.source.map .str))

/-- Well-formedness of an indicator record: present string fields are
non-empty (the data-model reading of a meaningful indicator/type/source). -/
def wffIndicator (i : IndicatorRec) : Bool :=
  (match i.indicator with
   | some s => !(s == "")
   | none => true) &&
  (match i.type with
   | some s => !(s == "")
   | none => true) &&
  (match i.source with
   | some s => !(s == "")
   | none => true)

/-- A quoted CSV cell, per the spec ("every cell wrapped in double
quotes"). -/
def specQuote (s : String) : String := "\"" ++ s ++ "\""

/-- The spec's "confidence rendered as a rounded percentage". -/
def specConfCell (c : ℚ) : String := intToStr (jsMathRound (jsMulNat c 100)) ++ "%"

/-- The data cells of one indicator row per the spec: string fields
defaulted to `"unknown"` when absent, numeric fields defaulted to `0`. -/
def specRowCells (i : IndicatorRec) : List String :=
  [specQuote (i.indicator.getD "unknown"),
   specQuote (i.type.getD "unknown"),
   specQuote (specConfCell (i.confidence.getD 0)),
   specQuote (natToStr (i.connections.getD 0)),
   specQuote (i.source.getD "unknown")]

/-- The CSV the claim C7 literally describes, with header columns
`[Indicator, Type, Confidence%, Connections, Source]`. -/
def claimedCsvStated (xs : List IndicatorRec) : String :=
  joinWith "\n"
    (joinWith "," (["Indicator", "Type", "Confidence%", "Connections", "Source"].map specQuote) ::
     xs.map (fun i => joinWith "," (specRowCells i)))

/-- The CSV of the amended claim C7: identical, except that the
confidence column header is the literal `Confidence`. -/
def claimedCsvAmended (xs : List IndicatorRec) : String :=
  joinWith "\n"
    (joinWith "," (["Indicator", "Type", "Confidence", "Connections", "Source"].map specQuote) ::
     xs.map (fun i => joinWith "," (specRowCells i)))

mutual
/-- JSON-serialisability side condition of the round-trip claim: every
number in the value has a finite decimal representation (as every IEEE
double does) and object keys are duplicate-free at every level. -/
def serializableV : JValue → Bool
  | .null => true
  | .bool _ => true
  | .num q => decimalOk q
  | .str _ => true
  | .arr xs => serializableL xs
  | .obj fs => ((fs.map Prod.fst).Nodup : Bool) && serializableF fs
/-- Serialisability of array elements. -/
def serializableL : List JValue → Bool
  | [] => true
  | x :: xs => serializableV x && serializableL xs
/-- Serialisability of object member values. -/
def serializableF : List (String × JValue) → Bool
  | [] => true
  | (_, v) :: fs => serializableV v && serializableF fs
end

/-! ## Proof-support definitions for the round-trip development -/

/-- A printed number is followed by nothing or by a JSON separator, so the
greedy digit scan of the parser stops exactly at the number's end. -/
def numSafe : List Char → Prop
  | [] => True
  | c :: _ => c = ',' ∨ c = ']' ∨ c = '\x7d'

/-- The characters that can start a printed JSON value: a sign or digit
(numbers), or the opening character of the other five forms.  None is
whitespace and none is a closing delimiter or comma, which is what the
parser's lookahead needs. -/
def headOk (c : Char) : Bool :=
  (c == '-') || isDigitChar c || (c == 'n') || (c == 't') || (c == 'f') ||
    (c == '\"') || (c == '[') || (c == '\x7b')

/-- `headOk` of the first character of a list (false on the empty list). -/
def headOkL : List Char → Bool
  | [] => false
  | c :: _ => headOk c

mutual
/-- Fuel sufficient for `parseValue` to consume the printed form of a
value (nesting plus embedded string lengths). -/
def fuelV : JValue → Nat
  | .null => 1
  | .bool _ => 1
  | .num _ => 1
  | .str s => s.data.length + 2
  | .arr xs => fuelL xs + 1
  | .obj fs => fuelF fs + 1
/-- Fuel for the elements of an array. -/
def fuelL : List JValue → Nat
  | [] => 1
  | x :: xs => max (fuelV x) (fuelL xs) + 1
/-- Fuel for the members of an object. -/
def fuelF : List (String × JValue) → Nat
  | [] => 1
  | (k, v) :: fs => max (k.data.length + 2) (max (fuelV v) (fuelF fs)) + 1
end

/-- A representative serialisable `AnalysisResult` payload, used to
instantiate the round-trip theorem at a concrete value. -/
def roundTripSample : JValue :=
  .obj [("status", .str "success"),
        ("analytics", .obj [("total_entities", .num (mkRat 2 1)),
                            ("avg_confidence", .num (mkRat 85 100)),
                            ("source_count", .num (mkRat 3 1))]),
        ("results", .arr [.obj [("indicator", .str "8.8.8.8"),
                                ("type", .str "ip"),
                                ("confidence", .num (mkRat 1 2))],
                          .null, .bool true])]

/-! ## General lemmas -/

/-- A string has length zero exactly when it is empty. -/
theorem string_length_eq_zero_iff (s : String) : s.length = 0 ↔ s = "" := by
  cases s with
  | mk d =>
    have h : (String.mk d = "") ↔ d = [] := by
      constructor
      · intro h
        have h2 : String.mk d = String.mk [] := h
        injection h2
      · intro h
        rw [h]
    rw [h, show (String.mk d).length = d.length from rfl, List.length_eq_zero]

/-- The literals of the risk thresholds: `mkRat 8 10` is `0.8`. -/
theorem mkRat_8_10_eq : (mkRat 8 10 : ℚ) = 0.8 := by
  rw [Rat.mkRat_eq_div]
  norm_num

/-- The literals of the risk thresholds: `mkRat 5 10` is `0.5`. -/
theorem mkRat_5_10_eq : (mkRat 5 10 : ℚ) = 0.5 := by
  rw [Rat.mkRat_eq_div]
  norm_num

/-! ## Claim C2: risk-level thresholds -/

/-- C2.  Risk-level classification of `avg_confidence` uses thresholds 0.8
and 0.5: values `≥ 0.8` classify High, values in `[0.5, 0.8)` Medium, and
values `< 0.5` Low — with the per-indicator confidence-tier function
`getConfidenceClass` agreeing at every value — and in particular
`0.79 ↦ Medium`, `0.8 ↦ High`, `0.49 ↦ Low`.  The threshold constants of
the embedding are the source literals: `mkRat 8 10 = 0.8` and
`mkRat 5 10 = 0.5`. -/
theorem C2_risk_thresholds :
    (∀ v : ℚ,
      (mkRat 8 10 ≤ v → riskLevel v = "High" ∧ getConfidenceClass v = "high") ∧
      (mkRat 5 10 ≤ v → v < mkRat 8 10 →
        riskLevel v = "Medium" ∧ getConfidenceClass v = "medium") ∧
      (v < mkRat 5 10 → riskLevel v = "Low" ∧ getConfidenceClass v = "low")) ∧
    (mkRat 8 10 : ℚ) = 0.8 ∧ (mkRat 5 10 : ℚ) = 0.5 ∧
    riskLevel (mkRat 79 100) = "Medium" ∧ riskLevel (mkRat 8 10) = "High" ∧
    riskLevel (mkRat 49 100) = "Low" := by
  refine ⟨fun v => ⟨fun h => ?_, fun h1 h2 => ?_, fun h => ?_⟩,
    mkRat_8_10_eq, mkRat_5_10_eq, by decide, by decide, by decide⟩
  · simp [riskLevel, getConfidenceClass, ge_iff_le, h]
  · have h8 : ¬ mkRat 8 10 ≤ v := not_le.mpr h2
    simp [riskLevel, getConfidenceClass, ge_iff_le, h1, h8]
  · have h5 : ¬ mkRat 5 10 ≤ v := not_le.mpr h
    have h8 : ¬ mkRat 8 10 ≤ v := by
      intro hc
      exact h5 (le_trans (by decide) hc)
    simp [riskLevel, getConfidenceClass, ge_iff_le, h5, h8]

/-- C2 witness: the theorem instantiated at the concrete value `0.79`,
whose tier hypotheses are discharged by evaluation. -/
theorem C2_risk_thresholds_witness :
    riskLevel (mkRat 79 100) = "Medium" ∧ getConfidenceClass (mkRat 79 100) = "medium" :=
  (C2_risk_thresholds.1 (mkRat 79 100)).2.1 (by decide) (by decide)

/-! ## Claim C3: query-type detection priority -/

/-- C3.  `detectQueryType` tries the patterns in the fixed priority order
IP, email, domain, URL, returning the first kind whose pattern matches
and `"unknown"` when none matches; in particular `"8.8.8.8" ↦ "ip"`,
`"a@b.com" ↦ "email"`, `"example.com" ↦ "domain"`, and
`"not a query!!" ↦ "unknown"`. -/
theorem C3_detect_type_priority :
    (∀ q : String,
      (ipTest q = true → detectQueryType q = "ip") ∧
      (ipTest q = false → emailTest q = true → detectQueryType q = "email") ∧
      (ipTest q = false → emailTest q = false → domainTest q = true →
        detectQueryType q = "domain") ∧
      (ipTest q = false → emailTest q = false → domainTest q = false → urlTest q = true →
        detectQueryType q = "url") ∧
      (ipTest q = false → emailTest q = false → domainTest q = false → urlTest q = false →
        detectQueryType q = "unknown")) ∧
    detectQueryType "8.8.8.8" = "ip" ∧ detectQueryType "a@b.com" = "email" ∧
    detectQueryType "example.com" = "domain" ∧ detectQueryType "not a query!!" = "unknown" := by
  refine ⟨fun q => ⟨fun h1 => ?_, fun h1 h2 => ?_, fun h1 h2 h3 => ?_,
    fun h1 h2 h3 h4 => ?_, fun h1 h2 h3 h4 => ?_⟩, by decide, by decide, by decide, by decide⟩
  · simp [detectQueryType, h1]
  · simp [detectQueryType, h1, h2]
  · simp [detectQueryType, h1, h2, h3]
  · simp [detectQueryType, h1, h2, h3, h4]
  · simp [detectQueryType, h1, h2, h3, h4]

/-- C3 witness: the priority clauses instantiated at `"1.2.3.4"`, with the
pattern hypotheses discharged by evaluation. -/
theorem C3_detect_type_priority_witness : detectQueryType "1.2.3.4" = "ip" :=
  (C3_detect_type_priority.1 "1.2.3.4").1 (by decide)

/-! ## Claim C5: `auto` validation -/

/-- C5.  For type `auto`, `validateQuery` accepts exactly the strings whose
trimmed form is non-empty and at most 500 characters, performs no format
check (the acceptance condition mentions nothing but the trimmed length),
returns the trimmed query on success, and fails on the empty-trim and
over-500 cases. -/
theorem C5_auto_accepts_any :
    ∀ q : String,
      ((validateQuery q "auto").valid = true ↔
        (jsTrim q ≠ "" ∧ (jsTrim q).length ≤ 500)) ∧
      ((validateQuery q "auto").valid = true → validateQuery q "auto" = .ok (jsTrim q)) ∧
      (jsTrim q = "" → (validateQuery q "auto").valid = false) ∧
      (500 < (jsTrim q).length → (validateQuery q "auto").valid = false) := by
  intro q
  by_cases hq : q = ""
  · subst hq
    exact ⟨by simp [validateQuery, VResult.valid, jsTrim, dropWs], by simp [validateQuery, VResult.valid],
      fun _ => by simp [validateQuery, VResult.valid], fun h => by simp [validateQuery, VResult.valid]⟩
  · have hqb : (q == "") = false := by
      simp [hq]
    by_cases h0 : (jsTrim q).length = 0
    · have he : jsTrim q = "" := (string_length_eq_zero_iff _).mp h0
      refine ⟨?_, ?_, fun _ => ?_, fun h => ?_⟩ <;>
        simp [validateQuery, VResult.valid, hqb, h0, he] at *
    · by_cases h5 : 500 < (jsTrim q).length
      · have hne : ¬ (jsTrim q).length ≤ 500 := by omega
        refine ⟨?_, ?_, fun hh => ?_, fun h => ?_⟩ <;>
          simp [validateQuery, VResult.valid, hqb, h0, h5, hne]
      · have hle : (jsTrim q).length ≤ 500 := by omega
        have hne : jsTrim q ≠ "" := fun hc => h0 ((string_length_eq_zero_iff _).mpr hc)
        refine ⟨?_, ?_, fun hh => absurd hh hne, fun h => by omega⟩ <;>
          simp [validateQuery, VResult.valid, hqb, h0, h5, hne, hle]

/-- C5 witness: a concrete accepted query whose form matches no pattern
(`"not a query!!"` is accepted under type `auto`). -/
theorem C5_auto_accepts_any_witness :
    validateQuery "not a query!!" "auto" = .ok "not a query!!" :=
  (C5_auto_accepts_any "not a query!!").2.1 (by decide)

/-! ## Claim C6: CSV export of an empty indicator list (corrected)

The claim asserts that the export "produces exactly the header row with
no data rows, and triggers a 'no data' notification instead of a
download".  The code's guard (results.js lines 709-712) returns before
any CSV text is built: the outcome is the warning notification with no
CSV and no download, never a header-only CSV. -/

/-- C6 counterexample: on the empty indicator list the export takes the
no-data path and in particular does not produce the header-row CSV the
claim describes. -/
theorem C6_empty_csv_counterexample :
    downloadCSV (.arr []) = .noData ∧
    downloadCSV (.arr []) ≠
      .download (joinWith "," (CSV_HEADERS.map (fun h => "\"" ++ h ++ "\""))) := by
  constructor
  · rfl
  · intro h
    cases h

/-- C6 (amended).  Invoking CSV export on an empty or absent (falsy)
indicator list triggers the `'No data to export'` notification and
produces no CSV and no download at all. -/
theorem C6_empty_csv_no_data :
    ∀ v : JValue, (truthy v = false ∨ v = .arr []) → downloadCSV v = .noData := by
  intro v h
  cases h with
  | inl h => simp [downloadCSV, h]
  | inr h =>
    subst h
    rfl

/-- C6 witness: the amended theorem evaluated on an absent (`null`,
i.e. `results.results` undefined) indicator list. -/
theorem C6_empty_csv_no_data_witness : downloadCSV .null = .noData :=
  C6_empty_csv_no_data .null (Or.inl (by decide))

/-! ## Claim C9: `StorageManager.get` never propagates a parse error -/

/-- C9.  `StorageManager.get` is total and never propagates a parse
error: a missing key returns the supplied default, a stored string that
is not valid JSON also returns the default (the `JSON.parse` exception is
caught), and consequently a results-page load over a malformed stored
payload reaches the full-page error state rather than throwing. -/
theorem C9_storage_get_total :
    (∀ (store : Store) (key : String) (d : JValue),
      store key = none → storageGet store key d = d) ∧
    (∀ (store : Store) (key : String) (d : JValue) (raw : String),
      store key = some raw → jsonParse raw = none → storageGet store key d = d) ∧
    (∀ (store : Store) (raw : String),
      store RESULTS_KEY = some raw → jsonParse raw = none →
      ∃ m, resultsPageInit store = .errorState m) := by
  refine ⟨fun store key d h => ?_, fun store key d raw h hp => ?_, fun store raw h hp => ?_⟩
  · simp [storageGet, h]
  · rw [storageGet, h]
    by_cases hr : raw = ""
    · simp [hr]
    · simp [hr, hp]
  · by_cases hr : raw = ""
    · refine ⟨"No analysis data found. Please run a new search.", ?_⟩
      simp [resultsPageInit, hasResults, h, hr]
    · refine ⟨"Failed to load results. Please try again.", ?_⟩
      have hload : loadResults store = .null := by
        simp [loadResults, storageGet, h, hr, hp, truthy]
      simp [resultsPageInit, hasResults, h, hr, hload, truthy]

/-- C9 witness: a store holding the malformed raw string `"{oops"` under
the results key reaches the error state. -/
theorem C9_storage_get_total_witness :
    ∃ m, resultsPageInit
      (fun k => if k == "godeyeResults" then some "\x7boops" else none) = .errorState m :=
  C9_storage_get_total.2.2 _ "\x7boops" rfl rfl

/-! ## Claim C1: invalid payloads route to the error state -/

/-- C1.  A stored payload whose status is not `"success"`, or which lacks
an `analytics` or a `results` field, is routed to the error-state path
and never rendered: `validateResults` returns valid only when the status
field is the string `"success"` and the `analytics` and `results` fields
are both present (and truthy), and the page bootstrap reaches the
renderer only on payloads that `validateResults` accepts. -/
theorem C1_invalid_payload_error_state :
    (∀ r : JValue, validateResults r = .valid →
      strictEqStr (objGet r "status") "success" = true ∧
      (objGet r "analytics").isSome = true ∧ (objGet r "results").isSome = true) ∧
    (∀ store : Store,
      (strictEqStr (objGet (storageGet store RESULTS_KEY .null) "status") "success" = false ∨
       objGet (storageGet store RESULTS_KEY .null) "analytics" = none ∨
       objGet (storageGet store RESULTS_KEY .null) "results" = none) →
      ∃ m, resultsPageInit store = .errorState m) ∧
    (∀ (store : Store) (r : JValue),
      resultsPageInit store = .rendered r → validateResults r = .valid) := by
  have hval : ∀ r : JValue, validateResults r = .valid →
      strictEqStr (objGet r "status") "success" = true ∧
      (objGet r "analytics").isSome = true ∧ (objGet r "results").isSome = true := by
    intro r h
    rw [validateResults] at h
    by_cases h1 : badShape r = true
    · simp [h1] at h
    · by_cases h2 : strictEqStr (objGet r "status") "success" = true
      · by_cases h3 : truthy (jsField r "analytics") = true
        · by_cases h4 : truthy (jsField r "results") = true
          · refine ⟨h2, ?_, ?_⟩
            · cases hg : objGet r "analytics" with
              | some v => rfl
              | none => rw [jsField, hg] at h3; simp [truthy] at h3
            · cases hg : objGet r "results" with
              | some v => rfl
              | none => rw [jsField, hg] at h4; simp [truthy] at h4
          · simp [h1, h2, h3, h4] at h
        · simp [h1, h2, h3] at h
      · simp [h1, h2] at h
  refine ⟨hval, fun store hbad => ?_, fun store r h => ?_⟩
  · by_cases hh : hasResults store = true
    · set rr := storageGet store RESULTS_KEY .null with hr
      by_cases ht : truthy rr = true
      · have hload : loadResults store = rr := by
          rw [loadResults, ← hr, ht]
          simp
        have hnv : validateResults rr ≠ .valid := by
          intro hv
          rcases hval rr hv with ⟨hs, ha, hres⟩
          rcases hbad with hb | hb | hb
          · rw [hs] at hb
            cases hb
          · rw [hb] at ha
            cases ha
          · rw [hb] at hres
            cases hres
        cases hv : validateResults rr with
        | valid => exact absurd hv hnv
        | invalid e =>
          refine ⟨e, ?_⟩
          rw [resultsPageInit, hh]
          simp only [Bool.not_true, Bool.false_eq_true, if_false]
          rw [hload, ht]
          simp [hv]
      · have hload : loadResults store = .null := by
          rw [loadResults, ← hr]
          simp at ht
          simp [ht]
        refine ⟨"Failed to load results. Please try again.", ?_⟩
        rw [resultsPageInit, hh]
        simp [hload, truthy]
    · refine ⟨"No analysis data found. Please run a new search.", ?_⟩
      simp at hh
      simp [resultsPageInit, hh]
  · rw [resultsPageInit] at h
    by_cases hh : hasResults store = true
    · rw [hh] at h
      simp only [Bool.not_true, Bool.false_eq_true, if_false] at h
      by_cases ht : truthy (loadResults store) = true
      · rw [ht] at h
        simp only [Bool.not_true, Bool.false_eq_true, if_false] at h
        cases hv : validateResults (loadResults store) with
        | valid =>
          rw [hv] at h
          cases h
          exact hv
        | invalid e =>
          rw [hv] at h
          cases h
      · simp at ht
        rw [ht] at h
        simp [truthy] at h
    · simp at hh
      simp [hh] at h

/-- C1 witness: a stored payload with `status: "error"` reaches the error
state. -/
theorem C1_invalid_payload_error_state_witness :
    ∃ m, resultsPageInit
      (fun k => if k == "godeyeResults"
        then some "\x7b\"status\":\"error\",\"message\":\"Analysis failed upstream\"\x7d"
        else none) = .errorState m :=
  C1_invalid_payload_error_state.2.1 _ (Or.inl (by decide))

/-! ## Claim C10: metadata written before the network call, results key untouched on failure -/

/-- After the three metadata writes of `handleSubmit` (all accepted by the
store), the results key is unchanged and the three metadata keys hold the
serialised new values. -/
theorem metaWrites_keys (env : SubmitEnv) (store : Store) (q ty : String)
    (hw1 : env.writeOk QUERY_KEY = true) (hw2 : env.writeOk TYPE_KEY = true)
    (hw3 : env.writeOk TIMESTAMP_KEY = true) :
    (storageSet env.writeOk
      (storageSet env.writeOk
        (storageSet env.writeOk store QUERY_KEY (.str q)).1 TYPE_KEY (.str ty)).1
      TIMESTAMP_KEY (.str env.timestamp)).1 RESULTS_KEY = store RESULTS_KEY ∧
    (storageSet env.writeOk
      (storageSet env.writeOk
        (storageSet env.writeOk store QUERY_KEY (.str q)).1 TYPE_KEY (.str ty)).1
      TIMESTAMP_KEY (.str env.timestamp)).1 QUERY_KEY = some (stringify (.str q)) ∧
    (storageSet env.writeOk
      (storageSet env.writeOk
        (storageSet env.writeOk store QUERY_KEY (.str q)).1 TYPE_KEY (.str ty)).1
      TIMESTAMP_KEY (.str env.timestamp)).1 TYPE_KEY = some (stringify (.str ty)) ∧
    (storageSet env.writeOk
      (storageSet env.writeOk
        (storageSet env.writeOk store QUERY_KEY (.str q)).1 TYPE_KEY (.str ty)).1
      TIMESTAMP_KEY (.str env.timestamp)).1 TIMESTAMP_KEY =
        some (stringify (.str env.timestamp)) := by
  simp only [storageSet, hw1, hw2, hw3, if_true]
  refine ⟨?_, ?_, ?_, ?_⟩ <;> simp [RESULTS_KEY, QUERY_KEY, TYPE_KEY, TIMESTAMP_KEY]

/-- C10.  The submit handler writes `lastQuery`, `lastQueryType` and
`lastSearchTimestamp` after validation but before the network call, so
every search that fails afterwards (network error, bad response shape,
non-success status, or a failing write of the results themselves) leaves
`godeyeResults` unchanged while the three metadata keys already hold the
new query's values.  The claim's storage-failure mode is a failure of the
results write, so the oracle is assumed to accept the three metadata
writes. -/
theorem C10_metadata_before_network :
    ∀ (env : SubmitEnv) (store : Store) (rawQuery ty m : String),
      env.writeOk QUERY_KEY = true → env.writeOk TYPE_KEY = true →
      env.writeOk TIMESTAMP_KEY = true →
      (handleSubmit env store rawQuery ty).2 = .failed m →
      ∃ q, validateQuery (jsTrim rawQuery) ty = .ok q ∧
        (handleSubmit env store rawQuery ty).1 RESULTS_KEY = store RESULTS_KEY ∧
        (handleSubmit env store rawQuery ty).1 QUERY_KEY = some (stringify (.str q)) ∧
        (handleSubmit env store rawQuery ty).1 TYPE_KEY = some (stringify (.str ty)) ∧
        (handleSubmit env store rawQuery ty).1 TIMESTAMP_KEY =
          some (stringify (.str env.timestamp)) := by
  intro env store rawQuery ty m hw1 hw2 hw3 hfail
  rw [handleSubmit] at hfail ⊢
  cases hv : validateQuery (jsTrim rawQuery) ty with
  | err e =>
    rw [hv] at hfail
    simp at hfail
  | ok q =>
    rw [hv] at hfail
    dsimp only at hfail ⊢
    refine ⟨q, rfl, ?_⟩
    cases hn : env.net with
    | failure msg =>
      exact metaWrites_keys env store q ty hw1 hw2 hw3
    | success results =>
      rw [hn] at hfail
      dsimp only at hfail ⊢
      by_cases hbs : badShape results = true
      · rw [if_pos hbs]
        exact metaWrites_keys env store q ty hw1 hw2 hw3
      · rw [if_neg hbs] at hfail ⊢
        by_cases hst : strictEqStr (objGet results "status") "success" = true
        · rw [hst] at hfail ⊢
          simp only [Bool.not_true, Bool.false_eq_true, if_false] at hfail ⊢
          by_cases hwr : env.writeOk RESULTS_KEY = true
          · exfalso
            rw [storageSet] at hfail
            rw [hwr] at hfail
            simp at hfail
          · simp only [Bool.not_eq_true] at hwr
            rw [storageSet] at hfail ⊢
            rw [hwr] at hfail ⊢
            simp only [Bool.false_eq_true, if_false, Bool.not_false, if_true]
            exact metaWrites_keys env store q ty hw1 hw2 hw3
        · simp only [Bool.not_eq_true] at hst
          rw [hst] at hfail ⊢
          simp only [Bool.not_false, if_true]
          exact metaWrites_keys env store q ty hw1 hw2 hw3

/-- C10 witness: a concrete failing search (network failure) over an
empty store, with all writes accepted; the metadata keys end up holding
the new query's serialised values while the results key stays absent. -/
theorem C10_metadata_before_network_witness :
    ∃ q, validateQuery (jsTrim "example.com") "auto" = .ok q ∧
      (handleSubmit ⟨.failure "Request timeout. Please try again.", fun _ => true,
        "2026-01-01T00:00:00.000Z"⟩ (fun _ => none) "example.com" "auto").1 RESULTS_KEY =
        (fun _ => none : Store) RESULTS_KEY ∧
      (handleSubmit ⟨.failure "Request timeout. Please try again.", fun _ => true,
        "2026-01-01T00:00:00.000Z"⟩ (fun _ => none) "example.com" "auto").1 QUERY_KEY =
        some (stringify (.str q)) ∧
      (handleSubmit ⟨.failure "Request timeout. Please try again.", fun _ => true,
        "2026-01-01T00:00:00.000Z"⟩ (fun _ => none) "example.com" "auto").1 TYPE_KEY =
        some (stringify (.str "auto")) ∧
      (handleSubmit ⟨.failure "Request timeout. Please try again.", fun _ => true,
        "2026-01-01T00:00:00.000Z"⟩ (fun _ => none) "example.com" "auto").1 TIMESTAMP_KEY =
        some (stringify (.str "2026-01-01T00:00:00.000Z")) :=
  C10_metadata_before_network _ _ "example.com" "auto" "Request timeout. Please try again."
    rfl rfl rfl rfl

/-! ## Claim C4: IP validation is dotted-quad syntax -/

/-- Pointwise-equal predicates give equal `List.all`. -/
theorem list_all_ext {α : Type} (f g : α → Bool) (h : ∀ x, f x = g x) :
    ∀ l : List α, l.all f = l.all g := by
  intro l
  induction l with
  | nil => rfl
  | cons x xs ih => simp [List.all_cons, h x, ih]

/-- The octet alternation of the IP pattern accepts exactly the one-to-three
digit groups whose value is at most 255. -/
theorem octetRe_eq_specOctet : ∀ t : List Char, octetRe t = specOctet t
  | [] => by decide
  | [a] => by
    rw [Bool.eq_iff_iff]
    simp only [octetRe, specOctet, digitsVal, List.foldl, digitVal, List.isEmpty,
      List.all_cons, List.all_nil, isDigitChar, Bool.not_false, Bool.and_true, Bool.true_and,
      Bool.and_eq_true, decide_eq_true_eq, List.length_cons, List.length_nil]
    omega
  | [a, b] => by
    rw [Bool.eq_iff_iff]
    simp only [octetRe, specOctet, digitsVal, List.foldl, digitVal, List.isEmpty,
      List.all_cons, List.all_nil, isDigitChar, Bool.not_false, Bool.and_true, Bool.true_and,
      Bool.and_eq_true, decide_eq_true_eq, List.length_cons, List.length_nil]
    omega
  | [a, b, c] => by
    rw [Bool.eq_iff_iff]
    simp only [octetRe, specOctet, digitsVal, List.foldl, digitVal, List.isEmpty,
      List.all_cons, List.all_nil, isDigitChar, Bool.not_false, Bool.and_true, Bool.true_and,
      Bool.and_eq_true, Bool.or_eq_true, decide_eq_true_eq, beq_iff_eq,
      List.length_cons, List.length_nil]
    omega
  | _ :: _ :: _ :: _ :: _ => by
    rw [Bool.eq_iff_iff]
    simp only [octetRe, specOctet, List.isEmpty, List.length_cons, Bool.not_false,
      Bool.and_eq_true, decide_eq_true_eq, List.all_cons, Bool.false_eq_true, false_iff,
      not_and]
    intro _ h
    omega

/-- `splitDots` never returns the empty list of groups. -/
theorem splitDots_ne_nil : ∀ l : List Char, splitDots l ≠ []
  | [] => by simp [splitDots]
  | c :: rest => by
    rw [splitDots]
    by_cases hc : (c == '.') = true
    · simp [hc]
    · simp only [hc, Bool.false_eq_true, if_false]
      cases h2 : splitDots rest with
      | nil => simp
      | cons g gs => simp

/-- Group lengths of `splitDots` account for every character plus one
(the separators are one fewer than the groups). -/
theorem splitDots_length :
    ∀ l : List Char, ((splitDots l).map List.length).sum + (splitDots l).length = l.length + 1
  | [] => by simp [splitDots]
  | c :: rest => by
    have ih := splitDots_length rest
    rw [splitDots]
    by_cases hc : (c == '.') = true
    · rw [if_pos hc]
      simp only [List.map_cons, List.sum_cons, List.length_cons, List.length_nil] at ih ⊢
      omega
    · rw [if_neg hc]
      cases h2 : splitDots rest with
      | nil => exact absurd h2 (splitDots_ne_nil rest)
      | cons g gs =>
        rw [h2] at ih
        simp only [List.map_cons, List.sum_cons, List.length_cons] at ih ⊢
        omega

/-- A dotted-quad string has at most 15 characters. -/
theorem dottedQuad_length_le (s : String) (h : dottedQuadIPv4 s = true) :
    s.toList.length ≤ 15 := by
  rw [dottedQuadIPv4] at h
  simp only [Bool.and_eq_true] at h
  rcases h with ⟨h4, hall⟩
  have h4' : (splitDots s.toList).length = 4 := by
    simpa using h4
  have hlen3 : ∀ x ∈ (splitDots s.toList).map List.length, x ≤ 3 := by
    intro x hx
    rcases List.mem_map.mp hx with ⟨p, hp, rfl⟩
    have hps := List.all_eq_true.mp hall p hp
    rw [specOctet] at hps
    simp only [Bool.and_eq_true] at hps
    exact of_decide_eq_true hps.1.1.2
  have hsum : ((splitDots s.toList).map List.length).sum ≤
      ((splitDots s.toList).map List.length).length • 3 :=
    List.sum_le_card_nsmul _ _ hlen3
  have hmaplen : ((splitDots s.toList).map List.length).length = 4 := by
    rw [List.length_map, h4']
  have htot := splitDots_length s.toList
  rw [hmaplen] at hsum
  rw [h4'] at htot
  simp only [smul_eq_mul] at hsum
  omega

/-- C4.  For type `ip`, `validateQuery` accepts the (trimmed) query
exactly when it is dotted-quad IPv4 syntax: four decimal octets (one to
three digits each) separated by dots, each of value at most 255. -/
theorem C4_ip_validation :
    ∀ q : String, (validateQuery q "ip").valid = true ↔ dottedQuadIPv4 (jsTrim q) = true := by
  have hipeq : ∀ s : String, ipTest s = dottedQuadIPv4 s := by
    intro s
    rw [ipTest, dottedQuadIPv4]
    rw [list_all_ext octetRe specOctet octetRe_eq_specOctet]
  intro q
  by_cases hq : q = ""
  · subst hq
    constructor
    · intro h
      simp [validateQuery, VResult.valid] at h
    · intro h
      rw [show jsTrim "" = "" from by decide] at h
      exact absurd h (by decide)
  · have hqb : (q == "") = false := by simp [hq]
    by_cases h0 : (jsTrim q).length = 0
    · have he : jsTrim q = "" := (string_length_eq_zero_iff _).mp h0
      rw [he]
      constructor
      · intro h
        simp [validateQuery, VResult.valid, hqb, h0] at h
      · intro h
        exact absurd h (by decide)
    · by_cases h5 : 500 < (jsTrim q).length
      · constructor
        · intro h
          simp [validateQuery, VResult.valid, hqb, h0, h5] at h
        · intro h
          have hle := dottedQuad_length_le _ h
          have hlen : (jsTrim q).length = (jsTrim q).toList.length := rfl
          omega
      · rw [validateQuery]
        rw [if_neg (by simp [hqb])]
        rw [if_neg (by simp [h0])]
        rw [if_neg (by simpa using h5)]
        rw [if_neg (by decide)]
        rw [show patternFor "ip" = some ipTest from rfl]
        cases hip : ipTest (jsTrim q) with
        | true =>
          rw [← hipeq]
          simp [hip, VResult.valid]
        | false =>
          rw [← hipeq]
          simp [hip, VResult.valid]

/-! ## Claim C7: CSV export columns (corrected) -/

/-- Printing the rational embedding of a natural number gives its decimal
digits (no sign, no fraction). -/
theorem printNum_natCast (n : Nat) : printNum ((n : ℚ)) = natDigits n := by
  have hnum : ((n : ℚ)).num = (n : Int) := Rat.num_natCast n
  have hden : ((n : ℚ)).den = 1 := Rat.den_natCast n
  rw [printNum, hnum, hden]
  have hneg : ¬((n : Int) < 0) := by omega
  simp [hneg, show decExp 1 = some 0 from rfl]

/-- Field lookup on the indicator embedding: `indicator`. -/
theorem objGet_toJValue_indicator (i : IndicatorRec) :
    objGet i.toJValue "indicator" = i.indicator.map .str := by
  rcases i with ⟨oi, ot, oq, om, os⟩
  cases oi <;> cases ot <;> cases oq <;> cases om <;> cases os <;>
    simp [IndicatorRec.toJValue, optField, objGet, List.lookup]

/-- Field lookup on the indicator embedding: `type`. -/
theorem objGet_toJValue_type (i : IndicatorRec) :
    objGet i.toJValue "type" = i.type.map .str := by
  rcases i with ⟨oi, ot, oq, om, os⟩
  cases oi <;> cases ot <;> cases oq <;> cases om <;> cases os <;>
    simp [IndicatorRec.toJValue, optField, objGet, List.lookup]

/-- Field lookup on the indicator embedding: `confidence`. -/
theorem objGet_toJValue_confidence (i : IndicatorRec) :
    objGet i.toJValue "confidence" = i.confidence.map .num := by
  rcases i with ⟨oi, ot, oq, om, os⟩
  cases oi <;> cases ot <;> cases oq <;> cases om <;> cases os <;>
    simp [IndicatorRec.toJValue, optField, objGet, List.lookup]

/-- Field lookup on the indicator embedding: `connections`. -/
theorem objGet_toJValue_connections (i : IndicatorRec) :
    objGet i.toJValue "connections" = i.connections.map (fun (n : Nat) => .num (mkRat (n : Int) 1)) := by
  rcases i with ⟨oi, ot, oq, om, os⟩
  cases oi <;> cases ot <;> cases oq <;> cases om <;> cases os <;>
    simp [IndicatorRec.toJValue, optField, objGet, List.lookup]

/-- Field lookup on the indicator embedding: `source`. -/
theorem objGet_toJValue_source (i : IndicatorRec) :
    objGet i.toJValue "source" = i.source.map .str := by
  rcases i with ⟨oi, ot, oq, om, os⟩
  cases oi <;> cases ot <;> cases oq <;> cases om <;> cases os <;>
    simp [IndicatorRec.toJValue, optField, objGet, List.lookup]

/-- The string cells of the export agree with the spec-side default: a
present non-empty string is kept, an absent one becomes `"unknown"`. -/
theorem csvCell_strField (o : Option String)
    (ho : (match o with
           | some s => !(s == "")
           | none => true) = true) :
    csvCell (jsOr (o.map .str) (.str "unknown")) = specQuote (o.getD "unknown") := by
  cases o with
  | none => rfl
  | some s =>
    simp only at ho
    simp [csvCell, jsOr, truthy, ho, jsDisplay, specQuote]

/-- The confidence cell of the export agrees with the spec-side rounded
percentage with default `0`. -/
theorem csvCell_confField (o : Option ℚ) :
    csvCell (.str (confPercent (jsOr (o.map .num) (.num 0)))) =
      specQuote (specConfCell (o.getD 0)) := by
  cases o with
  | none => rfl
  | some c =>
    by_cases hc : c.num = 0
    · have hc0 : c = 0 := Rat.num_eq_zero.mp hc
      subst hc0
      simp [csvCell, jsOr, truthy, confPercent, jsToNumber, specQuote, specConfCell, jsDisplay]
    · simp [csvCell, jsOr, truthy, hc, confPercent, jsToNumber, specQuote, specConfCell,
        jsDisplay]

/-- The connections cell of the export agrees with the spec-side decimal
with default `0`. -/
theorem csvCell_connField (o : Option Nat) :
    csvCell (jsOr (o.map (fun (n : Nat) => .num (mkRat (n : Int) 1))) (.num 0)) =
      specQuote (natToStr (o.getD 0)) := by
  have h0 : printNum ((0 : ℚ)) = natDigits 0 := by
    simpa using printNum_natCast 0
  cases o with
  | none => simp [csvCell, jsOr, jsDisplay, specQuote, natToStr, h0]
  | some n =>
    by_cases hn : n = 0
    · subst hn
      simp [csvCell, jsOr, truthy, jsDisplay, specQuote, natToStr, Rat.mkRat_one, h0]
    · simp [csvCell, jsOr, truthy, jsDisplay, specQuote, natToStr, Rat.mkRat_one, hn,
        printNum_natCast, Rat.num_intCast]

/-- The row the export builds for a well-formed indicator record equals
the spec-side row. -/
theorem csvRow_spec (i : IndicatorRec) (hw : wffIndicator i = true) :
    (csvRowVals i.toJValue).map csvCell = specRowCells i := by
  rw [wffIndicator] at hw
  simp only [Bool.and_eq_true] at hw
  rw [csvRowVals, objGet_toJValue_indicator, objGet_toJValue_type, objGet_toJValue_confidence,
    objGet_toJValue_connections, objGet_toJValue_source]
  rw [specRowCells, List.map_cons, List.map_cons, List.map_cons, List.map_cons, List.map_cons,
    List.map_nil]
  rw [csvCell_strField i.indicator hw.1.1, csvCell_strField i.type hw.1.2,
    csvCell_confField i.confidence, csvCell_connField i.connections,
    csvCell_strField i.source hw.2]

/-- The CSV text built by the export for a list of well-formed indicator
records equals the amended claim's CSV. -/
theorem csvText_spec (xs : List IndicatorRec) (hw : ∀ i ∈ xs, wffIndicator i = true) :
    csvText (xs.map IndicatorRec.toJValue) = claimedCsvAmended xs := by
  rw [csvText, claimedCsvAmended]
  congr 1
  congr 1
  rw [List.map_map]
  apply List.map_congr_left
  intro i hi
  simp only [Function.comp]
  rw [csvRow_spec i (hw i hi)]

/-- C7 counterexample: on a concrete single-indicator list the export's
header row spells the third column `Confidence`, not the claimed
`Confidence%`, so the produced CSV differs from the claim's CSV (while it
does equal the amended CSV). -/
theorem C7_csv_columns_counterexample :
    downloadCSV (.arr [IndicatorRec.toJValue
        ⟨some "1.2.3.4", some "ip", some (mkRat 1 2), some 3, some "whois"⟩]) ≠
      .download (claimedCsvStated
        [⟨some "1.2.3.4", some "ip", some (mkRat 1 2), some 3, some "whois"⟩]) ∧
    downloadCSV (.arr [IndicatorRec.toJValue
        ⟨some "1.2.3.4", some "ip", some (mkRat 1 2), some 3, some "whois"⟩]) =
      .download (claimedCsvAmended
        [⟨some "1.2.3.4", some "ip", some (mkRat 1 2), some 3, some "whois"⟩]) := by
  constructor
  · intro h
    cases h
  · rfl

/-- C7 (amended).  For every non-empty list of well-formed indicator
records, CSV export downloads exactly the CSV with the fixed quoted
columns `[Indicator, Type, Confidence, Connections, Source]` in that
order, one row per indicator in list order, absent string fields
defaulted to `"unknown"`, absent numeric fields defaulted to `0`, and
confidence rendered as a rounded percentage. -/
theorem C7_csv_columns (xs : List IndicatorRec) (hne : xs ≠ [])
    (hw : ∀ i ∈ xs, wffIndicator i = true) :
    downloadCSV (.arr (xs.map IndicatorRec.toJValue)) = .download (claimedCsvAmended xs) := by
  cases xs with
  | nil => exact absurd rfl hne
  | cons x xs' =>
    rw [show downloadCSV (.arr ((x :: xs').map IndicatorRec.toJValue)) =
        .download (csvText ((x :: xs').map IndicatorRec.toJValue)) from rfl]
    rw [csvText_spec _ hw]

/-- C7 witness: the amended theorem evaluated on a concrete two-element
list exercising both present and absent fields. -/
theorem C7_csv_columns_witness :
    downloadCSV (.arr (([⟨some "1.2.3.4", some "ip", some (mkRat 79 100), some 2, some "whois"⟩,
        ⟨none, none, none, none, none⟩] : List IndicatorRec).map IndicatorRec.toJValue)) =
      .download (claimedCsvAmended
        [⟨some "1.2.3.4", some "ip", some (mkRat 79 100), some 2, some "whois"⟩,
         ⟨none, none, none, none, none⟩]) :=
  C7_csv_columns _ (by simp) (by
    intro i hi
    simp only [List.mem_cons, List.mem_singleton] at hi
    rcases hi with h | h | h
    · rw [h]
      decide
    · rw [h]
      decide
    · cases h)

/-! ## Claim C8: JSON round trip — digit and string lemmas -/

/-- Distinct character codes give false `==`. -/
theorem char_beq_false {c d : Char} (h : c.toNat ≠ d.toNat) : (c == d) = false := by
  apply beq_eq_false_iff_ne.mpr
  intro he
  subst he
  exact h rfl

/-- `String.mk` of the character data gives back the string. -/
theorem string_mk_data (s : String) : String.mk s.data = s := by
  cases s
  rfl

/-- `digitChar` inverts `digitVal` below 10. -/
theorem digitVal_digitChar (n : Nat) (h : n < 10) : digitVal (digitChar n) = n := by
  interval_cases n <;> decide

/-- `digitChar` produces digit characters below 10. -/
theorem isDigitChar_digitChar (n : Nat) (h : n < 10) : isDigitChar (digitChar n) = true := by
  interval_cases n <;> decide

/-- The folded decimal value, shifted by a starting accumulator. -/
theorem digitsVal_foldl_shift (b : List Char) :
    ∀ x : Nat, b.foldl (fun n c => 10 * n + digitVal c) x = x * 10 ^ b.length + digitsVal b := by
  induction b with
  | nil => intro x; simp [digitsVal]
  | cons c b ih =>
    intro x
    have h1 := ih (10 * x + digitVal c)
    have h2 := ih (digitVal c)
    simp only [List.foldl_cons, List.length_cons, digitsVal] at h1 h2 ⊢
    rw [show (10 * 0 + digitVal c) = digitVal c by omega]
    rw [h1, h2]
    ring

/-- Decimal value of an appended digit string. -/
theorem digitsVal_append (a b : List Char) :
    digitsVal (a ++ b) = digitsVal a * 10 ^ b.length + digitsVal b := by
  rw [digitsVal, List.foldl_append]
  exact digitsVal_foldl_shift b (digitsVal a)

/-- Leading zeros do not change the decimal value. -/
theorem digitsVal_replicate_zero (k : Nat) (b : List Char) :
    digitsVal (List.replicate k '0' ++ b) = digitsVal b := by
  rw [digitsVal_append]
  have : digitsVal (List.replicate k '0') = 0 := by
    induction k with
    | zero => rfl
    | succ k ih =>
      rw [List.replicate_succ, digitsVal, List.foldl_cons]
      rw [show (10 * 0 + digitVal '0') = 0 by decide]
      exact ih
  rw [this]
  omega

/-- The specification of `natDigitsAux`: value, digit characters,
non-emptiness, and no leading zero for positive inputs. -/
theorem natDigitsAux_spec : ∀ f n : Nat, n < f →
    digitsVal (natDigitsAux f n) = n ∧
    (∀ c ∈ natDigitsAux f n, isDigitChar c = true) ∧
    natDigitsAux f n ≠ [] ∧
    (0 < n → ∀ i ids, natDigitsAux f n = i :: ids → i ≠ '0')
  | f + 1, n, h => by
    rw [natDigitsAux]
    by_cases h10 : n < 10
    · rw [if_pos h10]
      refine ⟨?_, ?_, by simp, ?_⟩
      · simp only [digitsVal, List.foldl_cons, List.foldl_nil]
        rw [digitVal_digitChar n h10]
        omega
      · intro c hc
        rw [List.mem_singleton] at hc
        subst hc
        exact isDigitChar_digitChar n h10
      · intro hn i ids he
        cases he
        intro hc
        have hv := digitVal_digitChar n h10
        rw [hc] at hv
        rw [show digitVal '0' = 0 from rfl] at hv
        omega
    · rw [if_neg h10]
      have hlt : n / 10 < f := by omega
      obtain ⟨hval, hdig, hne, hlead⟩ := natDigitsAux_spec f (n / 10) hlt
      refine ⟨?_, ?_, by simp [hne], ?_⟩
      · rw [digitsVal_append, hval]
        simp only [List.length_cons, List.length_nil, pow_one]
        rw [show digitsVal [digitChar (n % 10)] = digitVal (digitChar (n % 10)) from by
          simp [digitsVal]]
        rw [digitVal_digitChar (n % 10) (by omega)]
        omega
      · intro c hc
        rw [List.mem_append, List.mem_singleton] at hc
        rcases hc with hc | hc
        · exact hdig c hc
        · subst hc
          exact isDigitChar_digitChar (n % 10) (by omega)
      · intro _ i ids he
        cases haux : natDigitsAux f (n / 10) with
        | nil => exact absurd haux hne
        | cons a as =>
          rw [haux, List.cons_append] at he
          have hia : i = a := by
            injection he with h1 h2
            exact h1.symm
          subst hia
          exact hlead (by omega) i as haux

/-- The greedy digit scan splits an all-digit prefix exactly at a
non-digit (or empty) continuation. -/
theorem takeDigits_append : ∀ (ds l' : List Char), (∀ c ∈ ds, isDigitChar c = true) →
    (∀ (c : Char) (tail : List Char), l' = c :: tail → isDigitChar c = false) →
    takeDigits (ds ++ l') = (ds, l')
  | [], l', _, hl => by
    cases l' with
    | nil => rfl
    | cons c r =>
      simp [takeDigits, hl c r rfl]
  | d :: ds, l', hd, hl => by
    have ih := takeDigits_append ds l' (fun c hc => hd c (List.mem_cons_of_mem d hc)) hl
    rw [List.cons_append, takeDigits]
    rw [hd d (List.mem_cons_self d ds)]
    simp only [if_true, ih]

/-- Digit-count bound: a number below `10 ^ k` needs at most `k` digits
(for `k ≥ 1`). -/
theorem natDigitsAux_length_le : ∀ f n k : Nat, n < f → n < 10 ^ k → 1 ≤ k →
    (natDigitsAux f n).length ≤ k
  | f + 1, n, k, hf, hk, h1 => by
    rw [natDigitsAux]
    by_cases h10 : n < 10
    · rw [if_pos h10]
      simpa using h1
    · rw [if_neg h10]
      cases k with
      | zero => omega
      | succ j =>
        have hj : n / 10 < 10 ^ j := by
          apply Nat.div_lt_of_lt_mul
          rw [pow_succ] at hk
          omega
        cases j with
        | zero =>
          simp only [pow_zero] at hj
          omega
        | succ j' =>
          have ih := natDigitsAux_length_le f (n / 10) (j' + 1) (by omega) hj (by omega)
          rw [List.length_append]
          simpa using ih

/-- Each character escapes to a non-empty sequence. -/
theorem escapeChar_length_pos (c : Char) : 1 ≤ (escapeChar c).length := by
  rw [escapeChar]
  split_ifs <;> simp

/-- Escaping never shortens a string. -/
theorem escList_length_ge : ∀ l : List Char, l.length ≤ (escList l).length
  | [] => Nat.le_refl 0
  | c :: l => by
    rw [escList, List.length_append, List.length_cons]
    have h1 := escapeChar_length_pos c
    have h2 := escList_length_ge l
    omega

/-- `parseHexDigit` inverts `hexDigitChar` below 16. -/
theorem parseHexDigit_hexDigitChar (v : Nat) (h : v < 16) :
    parseHexDigit (hexDigitChar v) = some v := by
  interval_cases v <;> rfl


/-- Characters with equal codes are equal. -/
theorem char_eq_of_toNat_eq {c d : Char} (h : c.toNat = d.toNat) : c = d :=
  Char.eq_of_val_eq (UInt32.toNat.inj h)

/-- One escaped character parses back to the character, continuing on the
remaining input with one less fuel. -/
theorem parseStringBody_escapeChar (f : Nat) (c : Char) (l : List Char) :
    parseStringBody (f + 1) (escapeChar c ++ l) =
      (match parseStringBody f l with
       | some (s, r) => some (c :: s, r)
       | none => none) := by
  rw [escapeChar]
  by_cases h1 : (c == '\"') = true
  · rw [if_pos h1, show c = '\"' from beq_iff_eq.mp h1]
    rfl
  · rw [if_neg (by simp [h1])]
    by_cases h2 : (c == '\\') = true
    · rw [if_pos h2, show c = '\\' from beq_iff_eq.mp h2]
      rfl
    · rw [if_neg (by simp [h2])]
      by_cases h3 : (c == '\n') = true
      · rw [if_pos h3, show c = '\n' from beq_iff_eq.mp h3]
        rfl
      · rw [if_neg (by simp [h3])]
        by_cases h4 : (c == '\r') = true
        · rw [if_pos h4, show c = '\r' from beq_iff_eq.mp h4]
          rfl
        · rw [if_neg (by simp [h4])]
          by_cases h5 : (c == '\t') = true
          · rw [if_pos h5, show c = '\t' from beq_iff_eq.mp h5]
            rfl
          · rw [if_neg (by simp [h5])]
            by_cases h6 : (c.toNat == 8) = true
            · have hc8 : c.toNat = 8 := beq_iff_eq.mp h6
              rw [if_pos h6, show c = '\x08' from char_eq_of_toNat_eq (by rw [hc8]; decide)]
              rfl
            · rw [if_neg (by simp [h6])]
              by_cases h7 : (c.toNat == 12) = true
              · have hc12 : c.toNat = 12 := beq_iff_eq.mp h7
                rw [if_pos h7, show c = '\x0c' from char_eq_of_toNat_eq (by rw [hc12]; decide)]
                rfl
              · rw [if_neg (by simp [h7])]
                by_cases h8 : c.toNat < 32
                · rw [if_pos h8]
                  have hq : (t : Nat) → t < 32 →
                      parseHexDigit (hexDigitChar (t / 16)) = some (t / 16) ∧
                      parseHexDigit (hexDigitChar (t % 16)) = some (t % 16) := by
                    intro t ht
                    exact ⟨parseHexDigit_hexDigitChar _ (by omega),
                      parseHexDigit_hexDigitChar _ (by omega)⟩
                  obtain ⟨hqa, hqb⟩ := hq c.toNat h8
                  simp only [List.append_eq, List.cons_append, List.nil_append, parseStringBody]
                  rw [if_neg (by decide), if_pos (by decide)]
                  simp only [show (('u' : Char) == '\"') = false from by decide,
                    show (('u' : Char) == '\\') = false from by decide,
                    show (('u' : Char) == '/') = false from by decide,
                    show (('u' : Char) == 'b') = false from by decide,
                    show (('u' : Char) == 'f') = false from by decide,
                    show (('u' : Char) == 'n') = false from by decide,
                    show (('u' : Char) == 'r') = false from by decide,
                    show (('u' : Char) == 't') = false from by decide,
                    show (('u' : Char) == 'u') = true from by decide,
                    Bool.false_eq_true, if_false, if_true]
                  rw [show parseHexDigit '0' = some 0 from rfl, hqa, hqb]
                  dsimp only
                  have hval : ((0 * 16 + 0) * 16 + c.toNat / 16) * 16 + c.toNat % 16 =
                      c.toNat := by omega
                  rw [hval, Char.ofNat_toNat]
                · rw [if_neg h8]
                  simp only [List.cons_append, List.nil_append, List.append_eq,
                    List.singleton_append, parseStringBody]
                  rw [if_neg h1, if_neg h2]

/-- Escaped strings parse back to themselves, given fuel above the string
length, continuing after the closing quote. -/
theorem parseStringBody_escList : ∀ (cs : List Char) (f : Nat) (rest : List Char),
    cs.length < f →
    parseStringBody f (escList cs ++ ('\"' :: rest)) = some (cs, rest)
  | [], f, rest, h => by
    cases f with
    | zero => omega
    | succ f => simp [escList, parseStringBody]
  | c :: cs, f, rest, h => by
    cases f with
    | zero => omega
    | succ f =>
      have ih := parseStringBody_escList cs f rest (by
        rw [List.length_cons] at h
        omega)
      rw [escList, List.append_assoc, parseStringBody_escapeChar f c _, ih]

/-- Specification of `natDigits`: decimal value, digit characters,
non-emptiness, no leading zero when positive. -/
theorem natDigits_spec (n : Nat) :
    digitsVal (natDigits n) = n ∧ (∀ c ∈ natDigits n, isDigitChar c = true) ∧
    natDigits n ≠ [] ∧ (0 < n → ∀ i ids, natDigits n = i :: ids → i ≠ '0') := by
  rw [natDigits]
  exact natDigitsAux_spec (n + 1) n (Nat.lt_succ_self n)

/-- Digit-count bound for `natDigits`. -/
theorem natDigits_length_le (n k : Nat) (h : n < 10 ^ k) (h1 : 1 ≤ k) :
    (natDigits n).length ≤ k := by
  rw [natDigits]
  exact natDigitsAux_length_le (n + 1) n k (Nat.lt_succ_self n) h h1

/-- A separator-safe continuation does not begin with a digit. -/
theorem numSafe_not_digit (rest : List Char) (hr : numSafe rest) :
    ∀ (c : Char) (tail : List Char), rest = c :: tail → isDigitChar c = false := by
  intro c tail he
  subst he
  rcases hr with h | h | h <;> subst h <;> decide

/-- The unsigned number body parses the printed digit/fraction text back
into the scaled rational, for any separator-safe continuation. -/
theorem parseNumBody_print (s : Int) (m k : Nat) (rest : List Char) (hr : numSafe rest) :
    parseNumBody s (natDigits (m / 10 ^ k) ++
      ((if k == 0 then []
        else '.' :: (List.replicate (k - (natDigits (m % 10 ^ k)).length) '0' ++
          natDigits (m % 10 ^ k))) ++ rest)) =
      some (mkRat (s * (m : Int)) (10 ^ k), rest) := by
  obtain ⟨hIval, hIdig, hIne, hIlead⟩ := natDigits_spec (m / 10 ^ k)
  have hrdig := numSafe_not_digit rest hr
  cases hI : natDigits (m / 10 ^ k) with
  | nil => exact absurd hI hIne
  | cons i ids =>
  have hIval2 : digitsVal (i :: ids) = m / 10 ^ k := by
    rw [← hI]
    exact hIval
  have hlz : (i == '0' && !ids.isEmpty) = false := by
    by_cases hm : m / 10 ^ k = 0
    · have h0 : natDigits (m / 10 ^ k) = ['0'] := by
        rw [hm]
        rfl
      rw [h0] at hI
      have hids : ids = ([] : List Char) := by
        injection hI with h1 h2
        exact h2.symm
      rw [hids]
      simp
    · have hne0 : i ≠ '0' := hIlead (by omega) i ids hI
      rw [beq_eq_false_iff_ne.mpr hne0]
      simp
  by_cases hk : k = 0
  · subst hk
    rw [if_pos (show ((0 : Nat) == 0) = true by rfl)]
    simp only [List.nil_append]
    have htake : takeDigits ((i :: ids) ++ rest) = (i :: ids, rest) := by
      rw [← hI]
      exact takeDigits_append _ _ hIdig hrdig
    rw [parseNumBody, htake]
    have hmval : digitsVal (i :: ids) = m := by
      rw [hIval2]
      simp
    cases rest with
    | nil =>
      simp only [hlz, Bool.false_eq_true, if_false, List.append_nil, List.length_nil, hmval,
        pow_zero, mul_one, le_refl, if_true, Int.toNat_zero]
    | cons c r =>
      have hdot : (c == '.') = false := by
        rcases hr with h | h | h <;> subst h <;> decide
      have he1 : ((c == 'e') || (c == 'E')) = false := by
        rcases hr with h | h | h <;> subst h <;> decide
      simp only [hlz, Bool.false_eq_true, if_false, hdot, he1, List.append_nil,
        List.length_nil, hmval, pow_zero, mul_one, le_refl, if_true, Int.toNat_zero]
  · have hkpos : 1 ≤ k := by omega
    have hpow : 0 < 10 ^ k := Nat.pos_pow_of_pos k (by norm_num)
    obtain ⟨hFval, hFdig, hFne, _⟩ := natDigits_spec (m % 10 ^ k)
    have hflen : (natDigits (m % 10 ^ k)).length ≤ k :=
      natDigits_length_le _ _ (Nat.mod_lt m hpow) hkpos
    set fds := natDigits (m % 10 ^ k) with hfds
    set padded := List.replicate (k - fds.length) '0' ++ fds with hpadded
    have hpadlen : padded.length = k := by
      rw [hpadded, List.length_append, List.length_replicate]
      omega
    have hpaddig : ∀ c ∈ padded, isDigitChar c = true := by
      intro c hc
      rw [hpadded, List.mem_append] at hc
      rcases hc with hc | hc
      · rw [List.eq_of_mem_replicate hc]
        decide
      · exact hFdig c hc
    have hpadval : digitsVal padded = m % 10 ^ k := by
      rw [hpadded, digitsVal_replicate_zero, hFval]
    rw [if_neg (by simp [hk])]
    have htake : takeDigits ((i :: ids) ++ ('.' :: (padded ++ rest))) =
        (i :: ids, '.' :: (padded ++ rest)) := by
      rw [← hI]
      refine takeDigits_append _ _ hIdig ?_
      intro c tail he
      injection he with h1 h2
      rw [← h1]
      decide
    have htakeF : takeDigits (padded ++ rest) = (padded, rest) :=
      takeDigits_append _ _ hpaddig hrdig
    cases hpad : padded with
    | nil =>
      rw [hpad] at hpadlen
      simp at hpadlen
      omega
    | cons p0 ps =>
    rw [hpad] at htakeF hpadval
    have hplen : (p0 :: ps).length = k := by
      rw [← hpad, hpadlen]
    have hmval : digitsVal ((i :: ids) ++ (p0 :: ps)) = m := by
      rw [digitsVal_append, hIval2, hpadval, hplen, Nat.mul_comm]
      exact Nat.div_add_mod m (10 ^ k)
    rw [hpad] at htake
    simp only [List.cons_append, List.append_assoc] at htake ⊢
    rw [parseNumBody, htake]
    simp only [List.cons_append] at htakeF
    cases rest with
    | nil =>
      simp only [hlz, Bool.false_eq_true, if_false,
        show (('.' : Char) == '.') = true from rfl, if_true, htakeF, hmval, hplen,
        le_refl, Int.toNat_zero, pow_zero, mul_one]
    | cons c r =>
      have he1 : ((c == 'e') || (c == 'E')) = false := by
        rcases hr with h | h | h <;> subst h <;> decide
      simp only [hlz, Bool.false_eq_true, if_false,
        show (('.' : Char) == '.') = true from rfl, if_true, htakeF, he1,
        le_refl, Int.toNat_zero, pow_zero, mul_one]
      rw [hmval, hplen]

/-- A decimal digit character is not the minus sign. -/
theorem isDigitChar_ne_dash (c : Char) (h : isDigitChar c = true) : (c == '-') = false := by
  apply beq_eq_false_iff_ne.mpr
  intro he
  subst he
  rw [isDigitChar] at h
  exact absurd h (by decide)

/-- The full number parser inverts decimal printing: for every rational
with a finite decimal expansion and any separator-safe continuation,
parsing the printed form recovers the value exactly. -/
theorem parseNumber_printNum (q : ℚ) (hq : decimalOk q = true) (rest : List Char)
    (hr : numSafe rest) :
    parseNumber (printNum q ++ rest) = some (q, rest) := by
  rw [decimalOk] at hq
  obtain ⟨k, hk⟩ := Option.isSome_iff_exists.mp hq
  have hkd : (decExp q.den).getD 0 = k := by
    rw [hk]
    rfl
  have hk2 : (List.range (q.den + 1)).find? (fun j => 10 ^ j % q.den == 0) = some k := hk
  have hmod : 10 ^ k % q.den = 0 := by
    have hfind := List.find?_some hk2
    simpa using hfind
  have hdvd : q.den ∣ 10 ^ k := Nat.dvd_of_mod_eq_zero hmod
  have htmul : q.den * (10 ^ k / q.den) = 10 ^ k := Nat.mul_div_cancel' hdvd
  have hpowpos : (0 : ℕ) < 10 ^ k := Nat.pos_pow_of_pos k (by norm_num)
  have ht0 : 10 ^ k / q.den ≠ 0 := by
    intro h0
    rw [h0, Nat.mul_zero] at htmul
    omega
  have hqval : ∀ s : Int, s * (q.num.natAbs : Int) = q.num →
      mkRat (s * ((q.num.natAbs * (10 ^ k / q.den) : Nat) : Int)) (10 ^ k) = q := by
    intro s hs
    have h1 : s * ((q.num.natAbs * (10 ^ k / q.den) : Nat) : Int)
        = q.num * ((10 ^ k / q.den : Nat) : Int) := by
      rw [Nat.cast_mul, ← mul_assoc, hs]
    rw [h1]
    nth_rewrite 2 [← htmul]
    rw [Rat.mkRat_eq_div]
    have hcast : ((10 ^ k / q.den : Nat) : ℚ) ≠ 0 := Nat.cast_ne_zero.mpr ht0
    rw [Int.cast_mul, Nat.cast_mul, Int.cast_natCast,
      mul_comm ((q.den : ℕ) : ℚ) ((10 ^ k / q.den : ℕ) : ℚ), ← div_div,
      mul_div_cancel_right₀ _ hcast]
    exact Rat.num_div_den q
  simp only [printNum, hkd]
  by_cases hneg : q.num < 0
  · rw [if_pos hneg]
    simp only [List.append_assoc, List.singleton_append, List.cons_append, List.nil_append]
    simp only [parseNumber]
    rw [if_pos (show (('-' : Char) == '-') = true from rfl)]
    have hmain := parseNumBody_print (-1) (q.num.natAbs * (10 ^ k / q.den)) k rest hr
    rw [hmain, hqval (-1) (by omega)]
  · rw [if_neg hneg]
    simp only [List.nil_append, List.append_assoc]
    obtain ⟨hIval, hIdig, hIne, _⟩ :=
      natDigits_spec ((q.num.natAbs * (10 ^ k / q.den)) / 10 ^ k)
    cases hI : natDigits ((q.num.natAbs * (10 ^ k / q.den)) / 10 ^ k) with
    | nil => exact absurd hI hIne
    | cons c cs =>
      have hcdig : isDigitChar c = true := hIdig c (by
        rw [hI]
        exact List.mem_cons_self c cs)
      have hdash := isDigitChar_ne_dash c hcdig
      have hmain := parseNumBody_print 1 (q.num.natAbs * (10 ^ k / q.den)) k rest hr
      rw [hI] at hmain
      simp only [List.cons_append] at hmain ⊢
      simp only [parseNumber]
      rw [hdash]
      simp only [Bool.false_eq_true, if_false]
      rw [hmain, hqval 1 (by omega)]

theorem headOk_ne (c : Char) (h : headOk c = true) (d : Char) (hd : headOk d = false) : c ≠ d :=
  fun he => by rw [he, hd] at h; cases h

theorem digit_not_special (c : Char) (h : isDigitChar c = true) (d : Char)
    (hd : isDigitChar d = false) : (c == d) = false := by
  apply beq_eq_false_iff_ne.mpr
  intro he
  subst he
  rw [h] at hd
  cases hd

theorem headOk_not_ws (c : Char) (h : headOk c = true) :
    (c == ' ' || c == '\t' || c == '\n' || c == '\r') = false := by
  rw [headOk] at h
  simp only [Bool.or_eq_true] at h
  rcases h with (((((((h | h) | h) | h) | h) | h) | h) | h)
  · rw [beq_iff_eq.mp h]; decide
  · simp only [Bool.or_eq_false_iff]
    refine ⟨⟨⟨?_, ?_⟩, ?_⟩, ?_⟩ <;> exact digit_not_special c h _ (by decide)
  all_goals rw [beq_iff_eq.mp h]; decide

theorem skipWs_cons (c : Char) (t : List Char)
    (h : (c == ' ' || c == '\t' || c == '\n' || c == '\r') = false) :
    skipWs (c :: t) = c :: t := by
  rw [skipWs, h]
  simp

theorem skipWs_headOk (c : Char) (t : List Char) (h : headOk c = true) :
    skipWs (c :: t) = c :: t :=
  skipWs_cons c t (headOk_not_ws c h)

theorem headOkL_append (l t : List Char) (h : headOkL l = true) :
    headOkL (l ++ t) = true := by
  cases l with
  | nil => cases h
  | cons c r => exact h

theorem printNum_headOk (q : ℚ) : headOkL (printNum q) = true := by
  simp only [printNum]
  by_cases hneg : q.num < 0
  · rw [if_pos hneg]
    simp only [List.cons_append, List.nil_append, headOkL]
    decide
  · rw [if_neg hneg]
    obtain ⟨_, hdig, hne, _⟩ := natDigits_spec (q.num.natAbs * (10 ^ ((decExp q.den).getD 0) / q.den) / 10 ^ ((decExp q.den).getD 0))
    cases hI : natDigits (q.num.natAbs * (10 ^ ((decExp q.den).getD 0) / q.den) / 10 ^ ((decExp q.den).getD 0)) with
    | nil => exact absurd hI hne
    | cons c cs =>
      simp only [List.nil_append, List.cons_append, headOkL, headOk]
      rw [hdig c (by rw [hI]; exact List.mem_cons_self c cs)]
      simp

theorem printV_headOk (v : JValue) : headOkL (printV v) = true := by
  cases v with
  | null => decide
  | bool b => cases b <;> decide
  | num q => exact printNum_headOk q
  | str s => rfl
  | arr xs => rfl
  | obj fs => rfl

theorem fuelV_pos (v : JValue) : 1 ≤ fuelV v := by
  cases v <;> simp [fuelV]

theorem fuelL_pos (xs : List JValue) : 1 ≤ fuelL xs := by
  cases xs <;> simp [fuelL]

theorem fuelF_pos (fs : List (String × JValue)) : 1 ≤ fuelF fs := by
  cases fs with
  | nil => simp [fuelF]
  | cons kv fs => obtain ⟨k, v⟩ := kv; simp [fuelF]

mutual
theorem fuelV_le : ∀ v : JValue, fuelV v ≤ (printV v).length
  | .null => by simp [fuelV, printV]
  | .bool b => by cases b <;> simp [fuelV, printV]
  | .num q => by
    have h := printNum_headOk q
    rw [fuelV, printV]
    cases hp : printNum q with
    | nil => rw [hp] at h; cases h
    | cons c cs => simp
  | .str s => by
    have h := escList_length_ge s.data
    rw [fuelV, printV]
    simp only [List.length_cons, List.length_append, List.length_singleton]
    omega
  | .arr xs => by
    have h := fuelL_le xs
    rw [fuelV, printV]
    simp only [List.length_cons, List.length_append, List.length_singleton]
    omega
  | .obj fs => by
    have h := fuelF_le fs
    rw [fuelV, printV]
    simp only [List.length_cons, List.length_append, List.length_singleton]
    omega
theorem fuelL_le : ∀ xs : List JValue, fuelL xs ≤ (printItems xs).length + 1
  | [] => by simp [fuelL, printItems]
  | [x] => by
    have h1 := fuelV_le x
    have h2 := fuelV_pos x
    rw [fuelL, printItems]
    simp only [fuelL]
    omega
  | x :: y :: ys => by
    have h1 := fuelV_le x
    have h2 := fuelL_le (y :: ys)
    rw [fuelL]
    simp only [printItems]
    simp only [List.length_append, List.length_cons]
    omega
theorem fuelF_le : ∀ fs : List (String × JValue), fuelF fs ≤ (printMembers fs).length + 1
  | [] => by simp [fuelF, printMembers]
  | [(k, v)] => by
    have h1 := fuelV_le v
    have h2 := fuelV_pos v
    have h3 := escList_length_ge k.data
    rw [fuelF, printMembers]
    simp only [fuelF, List.length_cons, List.length_append]
    omega
  | (k, v) :: kv :: fs => by
    have h1 := fuelV_le v
    have h2 := fuelV_pos v
    have h3 := escList_length_ge k.data
    have h4 := fuelF_le (kv :: fs)
    rw [fuelF]
    simp only [printMembers]
    simp only [List.length_append, List.length_cons]
    omega
end

theorem natDigits_append_head (n : Nat) (l : List Char) :
    ∀ c t, natDigits n ++ l = c :: t → isDigitChar c = true := by
  obtain ⟨_, hdig, hne, _⟩ := natDigits_spec n
  cases hI : natDigits n with
  | nil => exact absurd hI hne
  | cons i ids =>
    intro c t h
    simp only [List.cons_append] at h
    injection h with h1 _
    rw [← h1]
    exact hdig i (by rw [hI]; exact List.mem_cons_self i ids)

theorem printNum_head (q : ℚ) :
    ∀ c t, printNum q = c :: t → (c = '-' ∨ isDigitChar c = true) := by
  intro c t h
  simp only [printNum] at h
  by_cases hneg : q.num < 0
  · rw [if_pos hneg] at h
    simp only [List.cons_append, List.nil_append] at h
    injection h with h1 _
    exact Or.inl h1.symm
  · rw [if_neg hneg] at h
    simp only [List.nil_append, List.append_assoc] at h
    exact Or.inr (natDigits_append_head _ _ c t h)

theorem numHead_beq_false (c : Char) (h : c = '-' ∨ isDigitChar c = true) (d : Char)
    (hd : isDigitChar d = false) (h2 : (('-' : Char) == d) = false) : (c == d) = false := by
  rcases h with h | h
  · subst h; exact h2
  · exact digit_not_special c h d hd

theorem numHead_headOk (c : Char) (h : c = '-' ∨ isDigitChar c = true) : headOk c = true := by
  rcases h with h | h
  · subst h; decide
  · rw [headOk, h]; simp

theorem parseValue_quote (f : Nat) (r : List Char) :
    parseValue (f + 1) ('\"' :: r) =
      match parseStringBody f r with
      | some (cs, rest) => some (.str (String.mk cs), rest)
      | none => none := rfl

theorem parseValue_lbracket (f : Nat) (r : List Char) :
    parseValue (f + 1) ('[' :: r) =
      (match skipWs r with
       | ']' :: r2 => some (.arr [], r2)
       | r2 =>
         match parseItems f r2 with
         | some (xs, rest) => some (.arr xs, rest)
         | none => none) := rfl

theorem parseValue_lbrace (f : Nat) (r : List Char) :
    parseValue (f + 1) ('\x7b' :: r) =
      (match skipWs r with
       | '\x7d' :: r2 => some (.obj [], r2)
       | r2 =>
         match parseMembers f r2 with
         | some (fs, rest) => some (.obj fs, rest)
         | none => none) := rfl

theorem parseMembers_quote (f : Nat) (r : List Char) :
    parseMembers (f + 1) ('\"' :: r) =
      (match parseStringBody f r with
       | none => none
       | some (key, r2) =>
         match skipWs r2 with
         | ':' :: r3 =>
           (match parseValue f r3 with
            | none => none
            | some (v, r4) =>
              match skipWs r4 with
              | ',' :: r5 =>
                (match parseMembers f r5 with
                 | some (fs, r6) => some ((String.mk key, v) :: fs, r6)
                 | none => none)
              | '\x7d' :: r5 => some ([(String.mk key, v)], r5)
              | _ => none)
         | _ => none) := rfl

theorem printMembers_head (k : String) (v : JValue) (fs : List (String × JValue)) :
    ∃ Y, printMembers ((k, v) :: fs) = '\"' :: Y := by
  cases fs with
  | nil => exact ⟨_, rfl⟩
  | cons kv2 fs2 =>
    exact ⟨(escList k.data ++ '\"' :: ':' :: printV v) ++ ',' :: printMembers (kv2 :: fs2),
      by simp only [printMembers, List.cons_append]⟩

theorem printItems_headOk (x : JValue) (xs : List JValue) :
    headOkL (printItems (x :: xs)) = true := by
  cases xs with
  | nil => exact printV_headOk x
  | cons y ys =>
    simp only [printItems]
    exact headOkL_append _ _ (printV_headOk x)

mutual
theorem parseValue_printV : ∀ (f : Nat) (v : JValue) (rest : List Char),
    serializableV v = true → numSafe rest → fuelV v ≤ f →
    parseValue f (printV v ++ rest) = some (v, rest)
  | 0, v, _, _, _, hf => by
    have := fuelV_pos v
    omega
  | f + 1, .null, rest, _, _, _ => rfl
  | f + 1, .bool b, rest, _, _, _ => by cases b <;> rfl
  | f + 1, .num q, rest, hser, hrest, _ => by
    cases hp : printNum q with
    | nil =>
      have hh := printNum_headOk q
      rw [hp] at hh
      cases hh
    | cons c cs =>
      have hc := printNum_head q c cs hp
      simp only [printV]
      rw [hp]
      simp only [List.cons_append]
      rw [parseValue, skipWs_headOk c _ (numHead_headOk c hc)]
      dsimp only
      rw [numHead_beq_false c hc '\x7b' (by decide) (by decide),
        numHead_beq_false c hc '[' (by decide) (by decide),
        numHead_beq_false c hc '\"' (by decide) (by decide),
        numHead_beq_false c hc 't' (by decide) (by decide),
        numHead_beq_false c hc 'f' (by decide) (by decide),
        numHead_beq_false c hc 'n' (by decide) (by decide)]
      simp only [Bool.false_eq_true, if_false]
      rw [← List.cons_append, ← hp, parseNumber_printNum q hser rest hrest]
  | f + 1, .str s, rest, _, _, hf => by
    have hlen : s.data.length < f := by
      rw [fuelV] at hf
      omega
    simp only [printV, List.cons_append, List.append_assoc, List.singleton_append, List.nil_append]
    rw [parseValue_quote, parseStringBody_escList s.data f rest hlen]
  | f + 1, .arr [], rest, _, _, _ => rfl
  | f + 1, .arr (x :: xs), rest, hser, _, hf => by
    cases hp : printItems (x :: xs) with
    | nil =>
      have h := printItems_headOk x xs
      rw [hp] at h
      cases h
    | cons c t =>
      have hio : headOk c = true := by
        have h := printItems_headOk x xs
        rw [hp] at h
        exact h
      have hfuel : fuelL (x :: xs) ≤ f := by
        rw [fuelV] at hf
        omega
      simp only [printV, List.cons_append]
      rw [parseValue_lbracket, hp]
      simp only [List.cons_append, List.append_assoc, List.singleton_append, List.nil_append]
      rw [skipWs_headOk c _ hio]
      split
      · rename_i r2 h
        injection h with h1 _
        exact absurd h1 (headOk_ne c hio ']' (by decide))
      · rw [← List.cons_append, ← hp,
          parseItems_printItems f (x :: xs) rest hser (by simp) hfuel]
  | f + 1, .obj [], rest, _, _, _ => rfl
  | f + 1, .obj ((k, v) :: fs), rest, hser, _, hf => by
    obtain ⟨Y, hY⟩ := printMembers_head k v fs
    have hserF : serializableF ((k, v) :: fs) = true := by
      rw [serializableV] at hser
      simp only [Bool.and_eq_true] at hser
      exact hser.2
    have hfuel : fuelF ((k, v) :: fs) ≤ f := by
      rw [fuelV] at hf
      omega
    simp only [printV, List.cons_append]
    rw [parseValue_lbrace, hY]
    simp only [List.cons_append, List.append_assoc, List.singleton_append, List.nil_append]
    rw [skipWs_cons '\"' _ (by decide)]
    split
    · rename_i r2 h
      injection h with h1 _
      exact absurd h1 (by decide)
    · rw [← List.cons_append, ← hY,
        parseMembers_printMembers f ((k, v) :: fs) rest hserF (by simp) hfuel]
theorem parseItems_printItems : ∀ (f : Nat) (xs : List JValue) (rest : List Char),
    serializableL xs = true → xs ≠ [] → fuelL xs ≤ f →
    parseItems f (printItems xs ++ (']' :: rest)) = some (xs, rest)
  | 0, xs, _, _, _, hf => by
    have := fuelL_pos xs
    omega
  | _ + 1, [], _, _, hne, _ => absurd rfl hne
  | f + 1, [x], rest, hser, _, hf => by
    have hser1 : serializableV x = true := by
      rw [serializableL] at hser
      simp only [Bool.and_eq_true] at hser
      exact hser.1
    rw [fuelL] at hf
    have hm := Nat.le_of_succ_le_succ hf
    have hfx : fuelV x ≤ f := le_trans (Nat.le_max_left _ _) hm
    simp only [printItems]
    rw [parseItems]
    simp only [parseValue_printV f x (']' :: rest) hser1 (Or.inr (Or.inl rfl)) hfx,
      skipWs_cons ']' rest (by decide)]
  | f + 1, x :: y :: ys, rest, hser, _, hf => by
    have hser' : serializableV x = true ∧ serializableL (y :: ys) = true := by
      rw [serializableL] at hser
      simp only [Bool.and_eq_true] at hser
      exact hser
    rw [fuelL] at hf
    have hm := Nat.le_of_succ_le_succ hf
    have hfx : fuelV x ≤ f := le_trans (Nat.le_max_left _ _) hm
    have hfys : fuelL (y :: ys) ≤ f := le_trans (Nat.le_max_right _ _) hm
    simp only [printItems, List.cons_append, List.append_assoc]
    rw [parseItems]
    simp only [parseValue_printV f x (',' :: (printItems (y :: ys) ++ ']' :: rest)) hser'.1
        (Or.inl rfl) hfx,
      skipWs_cons ',' (printItems (y :: ys) ++ ']' :: rest) (by decide),
      parseItems_printItems f (y :: ys) rest hser'.2 (by simp) hfys]
theorem parseMembers_printMembers : ∀ (f : Nat) (fs : List (String × JValue)) (rest : List Char),
    serializableF fs = true → fs ≠ [] → fuelF fs ≤ f →
    parseMembers f (printMembers fs ++ ('\x7d' :: rest)) = some (fs, rest)
  | 0, fs, _, _, _, hf => by
    have := fuelF_pos fs
    omega
  | _ + 1, [], _, _, hne, _ => absurd rfl hne
  | f + 1, [(k, v)], rest, hser, _, hf => by
    have hser1 : serializableV v = true := by
      rw [serializableF] at hser
      simp only [Bool.and_eq_true] at hser
      exact hser.1
    rw [fuelF] at hf
    have hm := Nat.le_of_succ_le_succ hf
    have hkey : k.data.length < f := by
      have h1 : k.data.length + 2 ≤ f := le_trans (Nat.le_max_left _ _) hm
      omega
    have hfv : fuelV v ≤ f :=
      le_trans (le_trans (Nat.le_max_left _ _) (Nat.le_max_right _ _)) hm
    simp only [printMembers, List.cons_append, List.append_assoc]
    rw [parseMembers_quote]
    simp only [parseStringBody_escList k.data f (':' :: (printV v ++ '\x7d' :: rest)) hkey,
      skipWs_cons ':' (printV v ++ '\x7d' :: rest) (by decide),
      parseValue_printV f v ('\x7d' :: rest) hser1 (Or.inr (Or.inr rfl)) hfv,
      skipWs_cons '\x7d' rest (by decide), string_mk_data]
  | f + 1, (k, v) :: kv :: fs, rest, hser, _, hf => by
    have hser' : serializableV v = true ∧ serializableF (kv :: fs) = true := by
      rw [serializableF] at hser
      simp only [Bool.and_eq_true] at hser
      exact hser
    rw [fuelF] at hf
    have hm := Nat.le_of_succ_le_succ hf
    have hkey : k.data.length < f := by
      have h1 : k.data.length + 2 ≤ f := le_trans (Nat.le_max_left _ _) hm
      omega
    have hfv : fuelV v ≤ f :=
      le_trans (le_trans (Nat.le_max_left _ _) (Nat.le_max_right _ _)) hm
    have hffs : fuelF (kv :: fs) ≤ f :=
      le_trans (le_trans (Nat.le_max_right _ _) (Nat.le_max_right _ _)) hm
    simp only [printMembers, List.cons_append, List.append_assoc]
    rw [parseMembers_quote]
    simp only [parseStringBody_escList k.data f
        (':' :: (printV v ++ ',' :: (printMembers (kv :: fs) ++ '\x7d' :: rest))) hkey,
      skipWs_cons ':' (printV v ++ ',' :: (printMembers (kv :: fs) ++ '\x7d' :: rest))
        (by decide),
      parseValue_printV f v (',' :: (printMembers (kv :: fs) ++ '\x7d' :: rest)) hser'.1
        (Or.inl rfl) hfv,
      skipWs_cons ',' (printMembers (kv :: fs) ++ '\x7d' :: rest) (by decide),
      parseMembers_printMembers f (kv :: fs) rest hser'.2 (by simp) hffs,
      string_mk_data]
end

theorem jsonParse_stringify (v : JValue) (h : serializableV v = true) :
    jsonParse (stringify v) = some v := by
  have hp := parseValue_printV ((printV v).length + 1) v [] h trivial
    (le_trans (fuelV_le v) (Nat.le_succ _))
  rw [List.append_nil] at hp
  have hlist : (stringify v).toList = printV v := rfl
  rw [jsonParse, hlist]
  simp only [hp]
  rfl

theorem stringify_ne_empty (v : JValue) : (stringify v == "") = false := by
  apply beq_eq_false_iff_ne.mpr
  intro he
  have hd : (stringify v).data = ("" : String).data := congrArg String.data he
  have hh := printV_headOk v
  cases hpr : printV v with
  | nil => rw [hpr] at hh; cases hh
  | cons c t =>
    rw [show (stringify v).data = printV v from rfl, hpr] at hd
    cases hd


/-- C8: for every JSON-serialisable `AnalysisResult` value `r` (every
number with a finite decimal expansion, duplicate-free keys), provided the
underlying `localStorage.setItem` accepts the write, storing `r` with the
search page's `StorageManager.set` under the results key and reading it
back with the results page's `StorageManager.get` yields exactly `r`:
`JSON.parse` after `JSON.stringify` is the identity on such values. -/
theorem C8_round_trip (writeOk : String → Bool) (store : Store) (r : JValue)
    (hser : serializableV r = true) (hw : writeOk RESULTS_KEY = true) :
    jsonParse (stringify r) = some r ∧
    storageGet (storageSet writeOk store RESULTS_KEY r).1 RESULTS_KEY .null = r := by
  refine ⟨jsonParse_stringify r hser, ?_⟩
  rw [storageSet, hw]
  simp only [if_true]
  rw [storageGet]
  simp only [show (RESULTS_KEY == RESULTS_KEY) = true from rfl, if_true]
  rw [stringify_ne_empty r]
  simp only [Bool.false_eq_true, if_false]
  rw [jsonParse_stringify r hser]

/-- Witness for C8: the round trip on a concrete analysis payload through
an initially empty store that accepts every write. -/
theorem C8_round_trip_witness :
    serializableV roundTripSample = true ∧
    (fun (_ : String) => true) RESULTS_KEY = true ∧
    (jsonParse (stringify roundTripSample) = some roundTripSample ∧
     storageGet
       (storageSet (fun _ => true) (fun _ => none) RESULTS_KEY roundTripSample).1
       RESULTS_KEY .null = roundTripSample) :=
  ⟨by decide, rfl,
    C8_round_trip (fun _ => true) (fun _ => none) roundTripSample (by decide) rfl⟩
